import Mathlib

/-!
Verification of the clinical-trial-search batch enrichment pipeline.

This development shallowly embeds the pipeline core of the repository:

* `extract_llm_json` — the response-parsing step of
  `LLMProcessor.generate_trial_tags` (`processors/llm_tagger.py`, lines
  131–152): brace-scanning extraction of a JSON span, with error markers.
* `DB`, `find_unprocessed_trials`, `mark_trial_processed`,
  `save_trial_tags` — the record store (`db/postgres.py`).  The relational
  state is a record of lists (one per `ctsearch` table); serial ids are
  represented by the natural unique key of each tag table (its name
  column), which the source keeps in bijection with ids via
  `ON CONFLICT ... RETURNING id` upserts.  Each `conn.execute` /
  `conn.fetchval` round trip is one fallible step controlled by a
  failure-injection oracle `fail : Nat → Bool` (step index ↦ does this
  round trip raise), and `conn.transaction()` is modelled by its asyncpg
  contract: commit the accumulated state on normal exit, discard it
  (rollback) when the body raises.
* `process_trials` — the batch driver (`scripts/process_db_trials.py`).
  The external LLM service is an oracle `respond : String → String` from
  a record to the raw model response text; the driver composes it with
  `extract_llm_json` exactly as `generate_trial_tags` does.  The Python
  `while True` loop is bounded by an explicit fuel of `max_trials + 1`,
  which exceeds the possible number of iterations (each non-final
  iteration processes at least one record and the loop stops once
  `processed_count >= max_trials`).  Python's `int >= None` `TypeError`
  is modelled by `pyGE` on `Option Nat`.

Modelling notes: the JSON value model covers objects, arrays, strings
(with the single-character escapes), integer numeric literals, booleans
and null — the shapes the tagging schema uses; records are identified by
their `nct_id`; timestamps are an abstract `Nat` clock.
-/

/-- JSON values, as produced by `json.loads` for the tag schema (numeric
literals restricted to integers, which is what the 1–5 relevance scores
use). -/
inductive Json where
  | null : Json
  | bool (b : Bool) : Json
  | num (n : Int) : Json
  | str (s : String) : Json
  | arr (xs : List Json) : Json
  | obj (kvs : List (String × Json)) : Json

/-- Python `dict` membership test `k in d` for a parsed JSON value (the
pipeline only ever applies it to objects). -/
def jsonHasKey : Json → String → Bool
  | .obj kvs, k => kvs.any (fun p => p.1 == k)
  | _, _ => false

/-- Python `d[k]` / key lookup on a parsed JSON object. -/
def jGet : Json → String → Option Json
  | .obj kvs, k => (kvs.find? (fun p => p.1 == k)).map (fun p => p.2)
  | _, _ => none

/-- Elements of a JSON array, or `[]` for a non-array (used only in
statements; the executable pipeline goes through `elemsE`). -/
def elemsL : Json → List Json
  | .arr xs => xs
  | _ => []

/-- Key/value pairs of a JSON object, or `[]` for a non-object. -/
def itemsL : Json → List (String × Json)
  | .obj kvs => kvs
  | _ => []

/-- Python iteration `for x in v` over a decoded JSON value: defined for
arrays, a `TypeError` otherwise. -/
def elemsE : Json → Except String (List Json)
  | .arr xs => .ok xs
  | _ => .error "TypeError: object is not iterable"

/-- Python `.items()` on a decoded JSON value: defined for objects, an
`AttributeError` otherwise. -/
def itemsE : Json → Except String (List (String × Json))
  | .obj kvs => .ok kvs
  | _ => .error "AttributeError: object has no attribute items"

/-- Binding a decoded JSON value to a text column: strings pass through,
anything else raises a data error at the driver. -/
def asStr : Json → Except String String
  | .str s => .ok s
  | _ => .error "DataError: expected a text value"

/-- Binding a decoded JSON value to an integer column. -/
def asInt : Json → Except String Int
  | .num n => .ok n
  | _ => .error "DataError: expected an integer value"

/-- JSON insignificant whitespace, as skipped by `json.loads`. -/
def skipWs : List Char → List Char
  | [] => []
  | c :: cs =>
    if c == ' ' || c == '\t' || c == '\n' || c == '\r' then skipWs cs else c :: cs

/-- The single-character string escapes of JSON (`\uXXXX` escapes are not
modelled; the tag vocabulary does not use them). -/
def escChar : Char → Option Char
  | '"' => some '"'
  | '\\' => some '\\'
  | '/' => some '/'
  | 'b' => some '\x08'
  | 'f' => some '\x0c'
  | 'n' => some '\n'
  | 'r' => some '\r'
  | 't' => some '\t'
  | _ => none

/-- Body of a JSON string literal after the opening quote: returns the
decoded characters and the input after the closing quote. -/
def parseStrChars : List Char → Option (List Char × List Char)
  | [] => none
  | '"' :: cs => some ([], cs)
  | '\\' :: [] => none
  | '\\' :: e :: cs =>
    match escChar e with
    | some d => (parseStrChars cs).map (fun p => (d :: p.1, p.2))
    | none => none
  | c :: cs => (parseStrChars cs).map (fun p => (c :: p.1, p.2))

/-- Longest digit prefix of the input and the remaining input. -/
def takeDigits : List Char → List Char × List Char
  | [] => ([], [])
  | c :: cs =>
    if c.isDigit then
      let p := takeDigits cs
      (c :: p.1, p.2)
    else ([], c :: cs)

/-- Numeric value of a digit string. -/
def natOfDigits (ds : List Char) : Nat :=
  ds.foldl (fun a c => a * 10 + (c.toNat - '0'.toNat)) 0

/-- JSON integer literal (optionally signed; fraction/exponent forms are
outside the modelled subset and fail the parse). -/
def parseNum (cs : List Char) : Option (Json × List Char) :=
  let (neg, cs1) :=
    match cs with
    | '-' :: rest => (true, rest)
    | _ => (false, cs)
  let (ds, rest) := takeDigits cs1
  if ds.isEmpty then none
  else
    match rest with
    | '.' :: _ => none
    | 'e' :: _ => none
    | 'E' :: _ => none
    | _ =>
      let v : Int := Int.ofNat (natOfDigits ds)
      some (.num (if neg then -v else v), rest)

/-- Insertion into a decoded object, with `dict` semantics: a repeated key
overwrites the earlier value in place. -/
def objInsert (kvs : List (String × Json)) (k : String) (v : Json) :
    List (String × Json) :=
  if kvs.any (fun p => p.1 == k) then
    kvs.map (fun p => if p.1 == k then (k, v) else p)
  else kvs ++ [(k, v)]

mutual

/-- Recursive-descent JSON value parser (the model of `json.loads`),
fuel-indexed; every mutual call consumes at least one input character, so
fuel `length + 2` never runs out. -/
def parseVal : Nat → List Char → Option (Json × List Char)
  | 0, _ => none
  | fuel + 1, cs =>
    match skipWs cs with
    | [] => none
    | '{' :: rest =>
      (match skipWs rest with
       | '}' :: rest2 => some (.obj [], rest2)
       | rest2 => parseMembers fuel rest2 [])
    | '[' :: rest =>
      (match skipWs rest with
       | ']' :: rest2 => some (.arr [], rest2)
       | rest2 => parseElems fuel rest2 [])
    | '"' :: rest => (parseStrChars rest).map (fun p => (.str (String.mk p.1), p.2))
    | 't' :: 'r' :: 'u' :: 'e' :: rest => some (.bool true, rest)
    | 'f' :: 'a' :: 'l' :: 's' :: 'e' :: rest => some (.bool false, rest)
    | 'n' :: 'u' :: 'l' :: 'l' :: rest => some (.null, rest)
    | c :: rest =>
      if c == '-' || c.isDigit then parseNum (c :: rest) else none

/-- Members of a JSON object after the opening brace (non-empty case). -/
def parseMembers : Nat → List Char → List (String × Json) →
    Option (Json × List Char)
  | 0, _, _ => none
  | fuel + 1, cs, acc =>
    match skipWs cs with
    | '"' :: rest =>
      (match parseStrChars rest with
       | none => none
       | some (kcs, rest2) =>
         match skipWs rest2 with
         | ':' :: rest3 =>
           (match parseVal fuel rest3 with
            | none => none
            | some (v, rest4) =>
              let acc1 := objInsert acc (String.mk kcs) v
              match skipWs rest4 with
              | ',' :: rest5 => parseMembers fuel rest5 acc1
              | '}' :: rest5 => some (.obj acc1, rest5)
              | _ => none)
         | _ => none)
    | _ => none

/-- Elements of a JSON array after the opening bracket (non-empty case). -/
def parseElems : Nat → List Char → List Json → Option (Json × List Char)
  | 0, _, _ => none
  | fuel + 1, cs, acc =>
    match parseVal fuel cs with
    | none => none
    | some (v, rest) =>
      match skipWs rest with
      | ',' :: rest2 => parseElems fuel rest2 (acc ++ [v])
      | ']' :: rest2 => some (.arr (acc ++ [v]), rest2)
      | _ => none

end

/-- The model of `json.loads`: parse one value and require only trailing
whitespace after it. -/
def parseJson (s : String) : Option Json :=
  match parseVal (s.length + 2) s.data with
  | some (v, rest) => if (skipWs rest).isEmpty then some v else none
  | none => none

/-- Index of the first character satisfying the predicate (Python
`str.find` restricted to a single-character needle). -/
def firstIdx (p : Char → Bool) : List Char → Option Nat
  | [] => none
  | c :: cs => if p c then some 0 else (firstIdx p cs).map (fun i => i + 1)

/-- Index of the last character satisfying the predicate (Python
`str.rfind`). -/
def lastIdx (p : Char → Bool) (cs : List Char) : Option Nat :=
  match firstIdx p cs.reverse with
  | some k => some (cs.length - 1 - k)
  | none => none

/-- Error-marker object produced by the extractor on an unusable model
response. -/
def errObj (reason : String) : Json :=
  .obj [("error", .str reason)]

/-- The response-parsing step of `LLMProcessor.generate_trial_tags`
(`llm_tagger.py` 134–146): `json_start = response.find("{")`,
`json_end = response.rfind("}") + 1`, parse the slice when
`json_start >= 0 and json_end > json_start`, otherwise (or on a decode
error) return a `dict` carrying an `"error"` key. -/
def extract_llm_json (r : String) : Json :=
  let cs := r.data
  let jsonStart : Int :=
    match firstIdx (fun c => c == '{') cs with
    | some i => Int.ofNat i
    | none => -1
  let jsonEnd : Int :=
    (match lastIdx (fun c => c == '}') cs with
     | some j => Int.ofNat j
     | none => -1) + 1
  if 0 ≤ jsonStart ∧ jsonStart < jsonEnd then
    let s := String.mk ((cs.drop jsonStart.toNat).take (jsonEnd - jsonStart).toNat)
    match parseJson s with
    | some j => j
    | none => errObj "Failed to parse JSON from LLM response"
  else errObj "Could not extract JSON from LLM response"

/-- The spec's description of the extraction span: the substring from the
first `{` through the last `}`, when such a span exists. -/
def spanOfBraces (r : String) : Option String :=
  match firstIdx (fun c => c == '{') r.data, lastIdx (fun c => c == '}') r.data with
  | some i, some j =>
    if i ≤ j then some (String.mk ((r.data.drop i).take (j + 1 - i))) else none
  | _, _ => none


/-- One row of `ctsearch.processed_trials`: the ProcessingState of a
record (`nct_id`, `successfully_processed`, `processing_version`,
`processed_at`). -/
structure ProcRow where
  nctId : String
  success : Bool
  version : Int
  processedAt : Nat
deriving DecidableEq

/-- The relational state read and written by the pipeline: the `nct_id`
column of `ctgov.studies` plus every `ctsearch` table touched by the
record store.  Tag entities are keyed by their unique name column (the
source keeps serial ids in bijection with those names via
`ON CONFLICT ... RETURNING id`). -/
structure DB where
  studies : List String
  processed : List ProcRow
  conditionTags : List String
  trialConditions : List (String × String × Int)
  mechanismCategories : List String
  trialMechanisms : List (String × String × Int)
  treatmentTargets : List String
  trialTargets : List (String × String)
  simplifiedEligibility : List (String × String)
  criteriaTags : List (String × String)
  trialCriteria : List (String × String × String)
  diseaseStages : List String
  trialStageRelevance : List (String × String × Int)
deriving DecidableEq

/-- The empty search-side state (no tags, no processing rows). -/
def DB.empty (studies : List String) (stages : List String) : DB :=
  { studies := studies, processed := [], conditionTags := [],
    trialConditions := [], mechanismCategories := [], trialMechanisms := [],
    treatmentTargets := [], trialTargets := [], simplifiedEligibility := [],
    criteriaTags := [], trialCriteria := [], diseaseStages := stages,
    trialStageRelevance := [] }

/-- `INSERT ... ON CONFLICT (name) DO UPDATE SET name = name RETURNING id`
on a name-keyed tag table: ensure the name is present (the returned id is
the name itself in this model). -/
def insertName (l : List String) (s : String) : List String :=
  if l.any (fun x => x == s) then l else l ++ [s]

/-- Upsert of a scored link row keyed on `(nct_id, tag)`:
`ON CONFLICT ... DO UPDATE SET relevance_score = $3`. -/
def upsertScore (l : List (String × String × Int)) (nct name : String)
    (score : Int) : List (String × String × Int) :=
  if l.any (fun r => r.1 == nct && r.2.1 == name) then
    l.map (fun r => if r.1 == nct && r.2.1 == name then (nct, name, score) else r)
  else l ++ [(nct, name, score)]

/-- Insert of an unscored link row keyed on `(nct_id, tag)`:
`ON CONFLICT ... DO NOTHING`. -/
def linkPair (l : List (String × String)) (nct name : String) :
    List (String × String) :=
  if l.any (fun r => r.1 == nct && r.2 == name) then l else l ++ [(nct, name)]

/-- Upsert of the one-per-record eligibility summary:
`ON CONFLICT (nct_id) DO UPDATE SET summary = $2`. -/
def upsertSummary (l : List (String × String)) (nct s : String) :
    List (String × String) :=
  if l.any (fun r => r.1 == nct) then
    l.map (fun r => if r.1 == nct then (nct, s) else r)
  else l ++ [(nct, s)]

/-- `ON CONFLICT (criteria_name, criteria_type) DO UPDATE SET
criteria_name = $1` on `ctsearch.criteria_tags`: ensure the
(name, type) pair is present. -/
def insertCriteriaTag (l : List (String × String)) (name ty : String) :
    List (String × String) :=
  if l.any (fun r => r.1 == name && r.2 == ty) then l else l ++ [(name, ty)]

/-- `INSERT INTO ctsearch.trial_criteria ... ON CONFLICT DO NOTHING` with
the criteria id spelled as its (name, type) key. -/
def linkCriteria (l : List (String × String × String)) (nct name ty : String) :
    List (String × String × String) :=
  if l.any (fun r => r.1 == nct && r.2.1 == name && r.2.2 == ty) then l
  else l ++ [(nct, name, ty)]

/-- `PostgresConnector.find_unprocessed_trials` (`postgres.py` 173–205):
`SELECT s.nct_id ... LEFT JOIN ctsearch.processed_trials pt ... WHERE
pt.nct_id IS NULL LIMIT $1`.  Each returned record is identified by its
`nct_id`; the per-record child lookups (summaries, conditions,
interventions, eligibility) populate fields of the returned dictionaries
and do not change which records are selected. -/
def find_unprocessed_trials (db : DB) (limit : Nat) : List String :=
  ((db.studies.filter
      (fun s => !(db.processed.any (fun r => r.nctId == s)))).take limit)

/-- `PostgresConnector.mark_trial_processed` (`postgres.py` 273–298):
`INSERT INTO ctsearch.processed_trials ... ON CONFLICT (nct_id) DO UPDATE
SET processed_at = CURRENT_TIMESTAMP, successfully_processed = $2,
processing_version = $3`.  `now` stands for `CURRENT_TIMESTAMP`. -/
def mark_trial_processed (db : DB) (nct : String) (success : Bool)
    (version : Int) (now : Nat) : DB :=
  if db.processed.any (fun r => r.nctId == nct) then
    { db with processed := db.processed.map (fun r =>
        if r.nctId == nct then
          { r with success := success, version := version, processedAt := now }
        else r) }
  else
    { db with processed := db.processed ++ [⟨nct, success, version, now⟩] }

/-- State threaded through a `save_trial_tags` transaction body: the
tentative database plus the number of connection round trips executed so
far (the index consumed by the failure-injection oracle). -/
abbrev St := DB × Nat

/-- One `conn.execute`/`conn.fetchval` round trip that mutates the
database: it raises when the oracle injects a failure at this step. -/
def dbStep (fail : Nat → Bool) (f : DB → DB) (st : St) : Except String St :=
  if fail st.2 then .error "database error" else .ok (f st.1, st.2 + 1)

/-- One read-only `conn.fetchval` round trip. -/
def dbQuery {α : Type} (fail : Nat → Bool) (q : DB → α) (st : St) :
    Except String (α × St) :=
  if fail st.2 then .error "database error"
  else .ok (q st.1, (st.1, st.2 + 1))

/-- Body of step 1 of `save_trial_tags` for one condition tag: upsert the
name into `condition_tags`, then upsert the `(nct_id, condition_id)` link
with the constant relevance score 5. -/
def condStep (fail : Nat → Bool) (nct : String) (c : Json) (st : St) :
    Except String St :=
  match asStr c with
  | .error e => .error e
  | .ok s =>
    match dbStep fail
        (fun db => { db with conditionTags := insertName db.conditionTags s }) st with
    | .error e => .error e
    | .ok st1 =>
      dbStep fail
        (fun db => { db with trialConditions := upsertScore db.trialConditions nct s 5 })
        st1

/-- `for condition in tags_data["condition_tags"]`. -/
def condLoop (fail : Nat → Bool) (nct : String) :
    List Json → St → Except String St
  | [], st => .ok st
  | c :: cs, st =>
    match condStep fail nct c st with
    | .error e => .error e
    | .ok st1 => condLoop fail nct cs st1

/-- Body of step 2 of `save_trial_tags` for one mechanism category. -/
def mechStep (fail : Nat → Bool) (nct : String) (c : Json) (st : St) :
    Except String St :=
  match asStr c with
  | .error e => .error e
  | .ok s =>
    match dbStep fail
        (fun db => { db with mechanismCategories := insertName db.mechanismCategories s }) st with
    | .error e => .error e
    | .ok st1 =>
      dbStep fail
        (fun db => { db with trialMechanisms := upsertScore db.trialMechanisms nct s 5 })
        st1

/-- `for mechanism in tags_data["mechanisms"]`. -/
def mechLoop (fail : Nat → Bool) (nct : String) :
    List Json → St → Except String St
  | [], st => .ok st
  | c :: cs, st =>
    match mechStep fail nct c st with
    | .error e => .error e
    | .ok st1 => mechLoop fail nct cs st1

/-- Body of step 3 of `save_trial_tags` for one treatment target (the
link insert is `ON CONFLICT DO NOTHING`). -/
def targetStep (fail : Nat → Bool) (nct : String) (c : Json) (st : St) :
    Except String St :=
  match asStr c with
  | .error e => .error e
  | .ok s =>
    match dbStep fail
        (fun db => { db with treatmentTargets := insertName db.treatmentTargets s }) st with
    | .error e => .error e
    | .ok st1 =>
      dbStep fail
        (fun db => { db with trialTargets := linkPair db.trialTargets nct s })
        st1

/-- `for target in tags_data["treatment_targets"]`. -/
def targetLoop (fail : Nat → Bool) (nct : String) :
    List Json → St → Except String St
  | [], st => .ok st
  | c :: cs, st =>
    match targetStep fail nct c st with
    | .error e => .error e
    | .ok st1 => targetLoop fail nct cs st1

/-- Body of steps 5/6 of `save_trial_tags` for one criterion phrase of the
given type (`"inclusion"` or `"exclusion"`; the two source blocks are
identical up to that literal). -/
def critStep (fail : Nat → Bool) (nct ty : String) (c : Json) (st : St) :
    Except String St :=
  match asStr c with
  | .error e => .error e
  | .ok s =>
    match dbStep fail
        (fun db => { db with criteriaTags := insertCriteriaTag db.criteriaTags s ty }) st with
    | .error e => .error e
    | .ok st1 =>
      dbStep fail
        (fun db => { db with trialCriteria := linkCriteria db.trialCriteria nct s ty })
        st1

/-- `for criteria in tags_data["inclusion_criteria" / "exclusion_criteria"]`. -/
def critLoop (fail : Nat → Bool) (nct ty : String) :
    List Json → St → Except String St
  | [], st => .ok st
  | c :: cs, st =>
    match critStep fail nct ty c st with
    | .error e => .error e
    | .ok st1 => critLoop fail nct ty cs st1

/-- Body of step 7 of `save_trial_tags` for one `(stage, score)` item:
`SELECT id FROM ctsearch.disease_stages WHERE stage_name = $1`, then —
only when a stage id was found — upsert the scored relevance link;
an unknown stage name is skipped. -/
def stageStep (fail : Nat → Bool) (nct : String) (kv : String × Json)
    (st : St) : Except String St :=
  match dbQuery fail (fun db => db.diseaseStages.any (fun x => x == kv.1)) st with
  | .error e => .error e
  | .ok (found, st1) =>
    if found then
      match asInt kv.2 with
      | .error e => .error e
      | .ok n =>
        dbStep fail
          (fun db =>
            { db with trialStageRelevance := upsertScore db.trialStageRelevance nct kv.1 n })
          st1
    else .ok st1

/-- `for stage, score in tags_data["stage_relevance"].items()`. -/
def stageLoop (fail : Nat → Bool) (nct : String) :
    List (String × Json) → St → Except String St
  | [], st => .ok st
  | kv :: kvs, st =>
    match stageStep fail nct kv st with
    | .error e => .error e
    | .ok st1 => stageLoop fail nct kvs st1

/-- Step 1 of the transaction body: `if "condition_tags" in tags_data`. -/
def condPhase (fail : Nat → Bool) (nct : String) (tags : Json) (st : St) :
    Except String St :=
  match jGet tags "condition_tags" with
  | none => .ok st
  | some v =>
    match elemsE v with
    | .error e => .error e
    | .ok xs => condLoop fail nct xs st

/-- Step 2 of the transaction body: `if "mechanisms" in tags_data`. -/
def mechPhase (fail : Nat → Bool) (nct : String) (tags : Json) (st : St) :
    Except String St :=
  match jGet tags "mechanisms" with
  | none => .ok st
  | some v =>
    match elemsE v with
    | .error e => .error e
    | .ok xs => mechLoop fail nct xs st

/-- Step 3 of the transaction body: `if "treatment_targets" in tags_data`. -/
def targetPhase (fail : Nat → Bool) (nct : String) (tags : Json) (st : St) :
    Except String St :=
  match jGet tags "treatment_targets" with
  | none => .ok st
  | some v =>
    match elemsE v with
    | .error e => .error e
    | .ok xs => targetLoop fail nct xs st

/-- Step 4 of the transaction body:
`if "simplified_eligibility" in tags_data` — a single upsert. -/
def eligPhase (fail : Nat → Bool) (nct : String) (tags : Json) (st : St) :
    Except String St :=
  match jGet tags "simplified_eligibility" with
  | none => .ok st
  | some v =>
    match asStr v with
    | .error e => .error e
    | .ok s =>
      dbStep fail
        (fun db =>
          { db with simplifiedEligibility := upsertSummary db.simplifiedEligibility nct s })
        st

/-- Step 5 of the transaction body: `if "inclusion_criteria" in tags_data`. -/
def inclPhase (fail : Nat → Bool) (nct : String) (tags : Json) (st : St) :
    Except String St :=
  match jGet tags "inclusion_criteria" with
  | none => .ok st
  | some v =>
    match elemsE v with
    | .error e => .error e
    | .ok xs => critLoop fail nct "inclusion" xs st

/-- Step 6 of the transaction body: `if "exclusion_criteria" in tags_data`. -/
def exclPhase (fail : Nat → Bool) (nct : String) (tags : Json) (st : St) :
    Except String St :=
  match jGet tags "exclusion_criteria" with
  | none => .ok st
  | some v =>
    match elemsE v with
    | .error e => .error e
    | .ok xs => critLoop fail nct "exclusion" xs st

/-- Step 7 of the transaction body: `if "stage_relevance" in tags_data`. -/
def stagePhase (fail : Nat → Bool) (nct : String) (tags : Json) (st : St) :
    Except String St :=
  match jGet tags "stage_relevance" with
  | none => .ok st
  | some v =>
    match itemsE v with
    | .error e => .error e
    | .ok kvs => stageLoop fail nct kvs st

/-- The seven sequential sub-collection steps performed inside
`async with conn.transaction():` in `PostgresConnector.save_trial_tags`
(`postgres.py` 300–488), in source order. -/
def save_trial_tags_body (fail : Nat → Bool) (nct : String) (tags : Json)
    (st : St) : Except String St :=
  match condPhase fail nct tags st with
  | .error e => .error e
  | .ok st1 =>
    match mechPhase fail nct tags st1 with
    | .error e => .error e
    | .ok st2 =>
      match targetPhase fail nct tags st2 with
      | .error e => .error e
      | .ok st3 =>
        match eligPhase fail nct tags st3 with
        | .error e => .error e
        | .ok st4 =>
          match inclPhase fail nct tags st4 with
          | .error e => .error e
          | .ok st5 =>
            match exclPhase fail nct tags st5 with
            | .error e => .error e
            | .ok st6 => stagePhase fail nct tags st6

/-- `PostgresConnector.save_trial_tags`: the body runs inside
`conn.transaction()`, whose asyncpg contract commits the tentative state
on normal exit and rolls the database back to its pre-transaction state
when the body raises, re-raising the error to the caller. -/
def save_trial_tags (fail : Nat → Bool) (nct : String) (tags : Json)
    (db : DB) : Except String Unit × DB :=
  match save_trial_tags_body fail nct tags (db, 0) with
  | .ok (db1, _) => (.ok (), db1)
  | .error e => (.error e, db)

/-- The no-failure oracle: every connection round trip succeeds. -/
def noFail : Nat → Bool := fun _ => false

/-- Python's `processed_count >= max_trials` comparison (`process_db_trials.py`
line 53): defined between two integers, a `TypeError` when `max_trials`
is `None` (the `argparse` default that `main` forwards). -/
def pyGE (a : Nat) : Option Nat → Except String Bool
  | some m => .ok (decide (m ≤ a))
  | none => .error "TypeError: '>=' not supported between instances of 'int' and 'NoneType'"

/-- Observable calls the batch driver makes against its collaborators. -/
inductive Event where
  | fetch (limit : Nat) : Event
  | saveTags (nct : String) (tags : Json) : Event
  | markProcessed (nct : String) (success : Bool) : Event

/-- The per-record body of the `for trial in trials` loop of
`process_trials` (`process_db_trials.py` 67–107): run the extractor on
the record, treat a tag set carrying an `"error"` key as a failure, save
tags only on success (a raising save propagates out of the driver), then
mark the record processed and count it.  `respond` is the external
text-generation service; the driver reaches it through
`generate_trial_tags`, i.e. `extract_llm_json` of the raw response. -/
def processBatch (respond : String → String) (fail : Nat → Bool) :
    List String → Nat → DB → List Event →
    Except String (Nat × DB × List Event)
  | [], p, db, evs => .ok (p, db, evs)
  | nct :: rest, p, db, evs =>
    let tags := extract_llm_json (respond nct)
    if jsonHasKey tags "error" then
      let db1 := mark_trial_processed db nct false 1 0
      processBatch respond fail rest (p + 1) db1 (evs ++ [.markProcessed nct false])
    else
      match save_trial_tags fail nct tags db with
      | (.error e, _) => .error e
      | (.ok _, db1) =>
        let db2 := mark_trial_processed db1 nct true 1 0
        processBatch respond fail rest (p + 1) db2
          (evs ++ [.saveTags nct tags, .markProcessed nct true])

/-- The `while True` loop of `process_trials` (`process_db_trials.py`
51–111), with state `(processed_count, remaining)`: break once
`processed_count >= max_trials` (a `TypeError` when `max_trials` is
`None`), fetch `min(batch_size, remaining)` unprocessed records, break
when none are returned, otherwise process the batch and recompute
`remaining`.  `fuel` bounds the iteration count; the driver supplies
`max_trials + 1`, which the loop can never exhaust because every
continuing iteration processes at least one record. -/
def driverLoop (respond : String → String) (fail : Nat → Bool)
    (batchSize : Nat) (maxTrials : Option Nat) :
    Nat → Nat → Nat → DB → List Event →
    Except String (Nat × DB × List Event)
  | 0, _, _, _, _ => .error "loop fuel exhausted"
  | fuel + 1, p, rem, db, evs =>
    match pyGE p maxTrials with
    | .error e => .error e
    | .ok true => .ok (p, db, evs)
    | .ok false =>
      let cbs := min batchSize rem
      let trials := find_unprocessed_trials db cbs
      let evs1 := evs ++ [.fetch cbs]
      if trials.isEmpty then .ok (p, db, evs1)
      else
        match processBatch respond fail trials p db evs1 with
        | .error e => .error e
        | .ok (p1, db1, evs2) =>
          let rem1 := match maxTrials with
            | some m => m - p1
            | none => rem
          driverLoop respond fail batchSize maxTrials fuel p1 rem1 db1 evs2

/-- `process_trials` (`process_db_trials.py` 28–112): start with
`processed_count = 0` and `remaining = max_trials`, and run the loop.
The result is the returned processed count together with the final
database state and the trace of collaborator calls. -/
def process_trials (respond : String → String) (fail : Nat → Bool)
    (batchSize : Nat) (maxTrials : Option Nat) (db : DB) :
    Except String (Nat × DB × List Event) :=
  driverLoop respond fail batchSize maxTrials (maxTrials.getD 0 + 1) 0
    (maxTrials.getD 0) db []

/-- Processed count returned by a driver run, when it returned at all. -/
def runCount (r : Except String (Nat × DB × List Event)) : Option Nat :=
  match r with
  | .ok (c, _, _) => some c
  | .error _ => none

/-- Number of `markProcessed` calls in a trace. -/
def countMarks (evs : List Event) : Nat :=
  (evs.filter (fun e => match e with
    | .markProcessed _ _ => true
    | _ => false)).length

/-- Number of `markProcessed` calls a driver run performed. -/
def runMarks (r : Except String (Nat × DB × List Event)) : Option Nat :=
  match r with
  | .ok (_, _, evs) => some (countMarks evs)
  | .error _ => none

/-- The fetch limits a trace requested, in order. -/
def fetchLimits (evs : List Event) : List Nat :=
  evs.filterMap (fun e => match e with
    | .fetch l => some l
    | _ => none)

/-- The fetch limits a driver run requested. -/
def runFetches (r : Except String (Nat × DB × List Event)) : Option (List Nat) :=
  match r with
  | .ok (_, _, evs) => some (fetchLimits evs)
  | .error _ => none

/-- A tag set in the shape the prompt requests: each sub-collection
optional (present iff the model emitted the key), condition/mechanism/
target/criteria tags as strings, the eligibility summary as text, and
stage relevance as a stage-name-to-score mapping. -/
structure TagsData where
  condition_tags : Option (List String)
  mechanisms : Option (List String)
  treatment_targets : Option (List String)
  simplified_eligibility : Option String
  inclusion_criteria : Option (List String)
  exclusion_criteria : Option (List String)
  stage_relevance : Option (List (String × Int))

/-- The JSON object a well-shaped tag set decodes to. -/
def TagsData.toJson (td : TagsData) : Json :=
  Json.obj
    ((match td.condition_tags with
      | some l => [("condition_tags", Json.arr (l.map Json.str))]
      | none => []) ++
     (match td.mechanisms with
      | some l => [("mechanisms", Json.arr (l.map Json.str))]
      | none => []) ++
     (match td.treatment_targets with
      | some l => [("treatment_targets", Json.arr (l.map Json.str))]
      | none => []) ++
     (match td.simplified_eligibility with
      | some s => [("simplified_eligibility", Json.str s)]
      | none => []) ++
     (match td.inclusion_criteria with
      | some l => [("inclusion_criteria", Json.arr (l.map Json.str))]
      | none => []) ++
     (match td.exclusion_criteria with
      | some l => [("exclusion_criteria", Json.arr (l.map Json.str))]
      | none => []) ++
     (match td.stage_relevance with
      | some kvs => [("stage_relevance", Json.obj (kvs.map (fun p => (p.1, Json.num p.2))))]
      | none => []))

/-- Ten unprocessed trial records over the three pre-seeded disease
stages. -/
def dbTen : DB :=
  DB.empty ["T01", "T02", "T03", "T04", "T05", "T06", "T07", "T08", "T09", "T10"]
    ["early", "locally_advanced", "recurrent_metastatic"]

/-- An LLM service that answers one record with unusable prose and every
other record with an empty JSON object. -/
def respondTen : String → String :=
  fun nct => if nct == "T02" then "no json here" else "{}"

example : runCount (process_trials respondTen noFail 5 (some 3) dbTen) = some 3 := by rfl
example : runMarks (process_trials respondTen noFail 5 (some 3) dbTen) = some 3 := by rfl
example : runFetches (process_trials respondTen noFail 5 (some 3) dbTen) = some [3] := by rfl
example : runFetches (process_trials respondTen noFail 2 (some 3) dbTen) = some [2, 1] := by rfl

/-- A tag set carrying a single condition tag. -/
def tagsCond : Json := Json.obj [("condition_tags", Json.arr [Json.str "NSCLC"])]

/-- One unprocessed record over the three pre-seeded stages. -/
def dbStages : DB :=
  DB.empty ["N1"] ["early", "locally_advanced", "recurrent_metastatic"]

/-- A failure oracle that lets the first connection round trip succeed and
fails the second one (mid-transaction failure injection). -/
def failAt1 : Nat → Bool := fun k => k == 1

/-- A tag set whose stage-relevance mapping names one unregistered stage
(`"terminal"`) next to a registered one. -/
def tdTerminal : TagsData :=
  { condition_tags := some ["NSCLC"], mechanisms := none,
    treatment_targets := none, simplified_eligibility := none,
    inclusion_criteria := none, exclusion_criteria := none,
    stage_relevance := some [("terminal", 3), ("early", 4)] }

/-- Two records, one of which already holds a (failed) processing row. -/
def dbMixed : DB :=
  { DB.empty ["A1", "B2"] [] with processed := [⟨"B2", false, 1, 0⟩] }

theorem find_length_le (db : DB) (limit : Nat) :
    (find_unprocessed_trials db limit).length ≤ limit := by
  unfold find_unprocessed_trials
  exact (List.length_take_le _ _)

theorem find_mem_not_processed (db : DB) (limit : Nat) (s : String)
    (hs : s ∈ find_unprocessed_trials db limit) :
    ∀ r ∈ db.processed, r.nctId ≠ s := by
  intro r hr heq
  unfold find_unprocessed_trials at hs
  have hs1 := List.mem_of_mem_take hs
  rw [List.mem_filter] at hs1
  have h2 := hs1.2
  rw [Bool.not_eq_true'] at h2
  have h3 : db.processed.any (fun r => r.nctId == s) = true :=
    List.any_eq_true.mpr ⟨r, hr, by simp [heq]⟩
  rw [h2] at h3
  exact Bool.false_ne_true h3

theorem filter_upd_of_filter_nil (l : List ProcRow) (nct : String)
    (s : Bool) (v : Int) (t : Nat)
    (h : l.filter (fun r => r.nctId == nct) = []) :
    ((l.map (fun r => if r.nctId == nct then
        { r with success := s, version := v, processedAt := t } else r)).filter
      (fun r => r.nctId == nct)) = [] := by
  induction l with
  | nil => rfl
  | cons r l ih =>
    by_cases hr : (r.nctId == nct) = true
    · rw [List.filter_cons, if_pos hr] at h
      exact absurd h (List.cons_ne_nil _ _)
    · rw [List.filter_cons, if_neg hr] at h
      simp only [List.map_cons]
      rw [if_neg hr, List.filter_cons, if_neg hr]
      exact ih h

theorem filter_upd_one (l : List ProcRow) (nct : String) (s : Bool)
    (v : Int) (t : Nat)
    (hany : l.any (fun r => r.nctId == nct) = true)
    (hlen : (l.filter (fun r => r.nctId == nct)).length ≤ 1) :
    ((l.map (fun r => if r.nctId == nct then
        { r with success := s, version := v, processedAt := t } else r)).filter
      (fun r => r.nctId == nct)) = [(⟨nct, s, v, t⟩ : ProcRow)] := by
  induction l with
  | nil => exact absurd hany (by simp)
  | cons r l ih =>
    by_cases hr : (r.nctId == nct) = true
    · simp only [List.map_cons]
      rw [if_pos hr]
      have hprd : (({ r with success := s, version := v, processedAt := t } : ProcRow).nctId == nct) = true := hr
      rw [List.filter_cons, if_pos hprd]
      have heq : ({ r with success := s, version := v, processedAt := t } : ProcRow) = ⟨nct, s, v, t⟩ := by
        have hid : r.nctId = nct := beq_iff_eq.mp hr
        cases r
        cases hid
        rfl
      rw [heq]
      have hnil : l.filter (fun r => r.nctId == nct) = [] := by
        rw [List.filter_cons, if_pos hr] at hlen
        simp only [List.length_cons] at hlen
        have h0 := Nat.le_of_succ_le_succ hlen
        exact List.length_eq_zero.mp (Nat.le_zero.mp h0)
      rw [filter_upd_of_filter_nil l nct s v t hnil]
    · have hr' : (r.nctId == nct) = false := Bool.eq_false_iff.mpr hr
      simp only [List.map_cons]
      rw [if_neg hr, List.filter_cons, if_neg hr]
      rw [List.any_cons] at hany
      rw [hr'] at hany
      simp only [Bool.false_or] at hany
      rw [List.filter_cons, if_neg hr] at hlen
      exact ih hany hlen

theorem mark_filter (db : DB) (nct : String) (s : Bool) (v : Int) (t : Nat)
    (hlen : (db.processed.filter (fun r => r.nctId == nct)).length ≤ 1) :
    ((mark_trial_processed db nct s v t).processed.filter
      (fun r => r.nctId == nct)) = [(⟨nct, s, v, t⟩ : ProcRow)] := by
  unfold mark_trial_processed
  by_cases hany : db.processed.any (fun r => r.nctId == nct) = true
  · rw [if_pos hany]
    exact filter_upd_one db.processed nct s v t hany hlen
  · rw [if_neg hany]
    have hnil : db.processed.filter (fun r => r.nctId == nct) = [] := by
      rw [List.filter_eq_nil_iff]
      intro a ha hp
      exact hany (List.any_eq_true.mpr ⟨a, ha, hp⟩)
    simp only [List.filter_append, hnil, List.nil_append]
    simp [List.filter_cons]

/-- C4: for every limit and database state, `find_unprocessed_trials`
returns at most `limit` records, and no returned record has a row in
`processed_trials` — previously attempted records (success or failure)
are never selected by the default query. -/
theorem find_unprocessed_trials_spec :
    ∀ (db : DB) (limit : Nat),
      (find_unprocessed_trials db limit).length ≤ limit ∧
      (∀ s, s ∈ find_unprocessed_trials db limit →
        ∀ r ∈ db.processed, r.nctId ≠ s) :=
  fun db limit =>
    ⟨find_length_le db limit, fun s hs => find_mem_not_processed db limit s hs⟩

theorem find_unprocessed_trials_spec_witness :
    "A1" ∈ find_unprocessed_trials dbMixed 5 ∧
    (⟨"B2", false, 1, 0⟩ : ProcRow).nctId ≠ "A1" :=
  ⟨by decide,
   (find_unprocessed_trials_spec dbMixed 5).2 "A1" (by decide)
     ⟨"B2", false, 1, 0⟩ (by decide)⟩

/-- C8: `mark_trial_processed` upserts the ProcessingState row: given the
schema's uniqueness invariant (at most one row per id), two calls with
different success flags and versions leave exactly one row for the id,
holding the latest success flag, version and attempt timestamp. -/
theorem mark_trial_processed_idempotent :
    ∀ (db : DB) (nct : String) (s1 : Bool) (v1 : Int) (t1 : Nat)
      (s2 : Bool) (v2 : Int) (t2 : Nat),
      (db.processed.filter (fun r => r.nctId == nct)).length ≤ 1 →
      ((mark_trial_processed (mark_trial_processed db nct s1 v1 t1) nct s2 v2 t2).processed.filter
        (fun r => r.nctId == nct)) = [⟨nct, s2, v2, t2⟩] := by
  intro db nct s1 v1 t1 s2 v2 t2 h
  have h1 := mark_filter db nct s1 v1 t1 h
  have h2 : (((mark_trial_processed db nct s1 v1 t1).processed.filter
      (fun r => r.nctId == nct)).length ≤ 1) := by
    rw [h1]
    exact le_refl 1
  exact mark_filter _ nct s2 v2 t2 h2

theorem mark_trial_processed_idempotent_witness :
    ((mark_trial_processed (mark_trial_processed dbMixed "B2" true 2 7) "B2" false 3 9).processed.filter
      (fun r => r.nctId == "B2")) = [⟨"B2", false, 3, 9⟩] :=
  mark_trial_processed_idempotent dbMixed "B2" true 2 7 false 3 9 (by decide)

/-- C9: calling `process_trials` with `max_trials = None` — the value
`main` forwards when `--max-trials` is omitted — raises a `TypeError` at
the `processed_count >= max_trials` comparison on the first loop
iteration, before any record is fetched or processed. -/
theorem process_trials_none_raises :
    ∀ (respond : String → String) (fail : Nat → Bool) (batchSize : Nat) (db : DB),
      process_trials respond fail batchSize none db =
        .error "TypeError: '>=' not supported between instances of 'int' and 'NoneType'" :=
  fun _ _ _ _ => rfl

theorem extract_eq_span (r : String) :
    extract_llm_json r =
      match spanOfBraces r with
      | none => errObj "Could not extract JSON from LLM response"
      | some s =>
        match parseJson s with
        | some j => j
        | none => errObj "Failed to parse JSON from LLM response" := by
  unfold extract_llm_json spanOfBraces
  cases h1 : firstIdx (fun c => c == '{') r.data with
  | none =>
    cases h2 : lastIdx (fun c => c == '}') r.data with
    | none =>
      simp only [h1, h2]
      rw [if_neg (by omega)]
    | some j =>
      simp only [h1, h2]
      rw [if_neg (by omega)]
  | some i =>
    cases h2 : lastIdx (fun c => c == '}') r.data with
    | none =>
      simp only [h1, h2]
      rw [if_neg (by omega)]
    | some j =>
      simp only [h1, h2]
      by_cases hij : i ≤ j
      · rw [if_pos (by constructor <;> simp only [Int.ofNat_eq_natCast] <;> omega), if_pos hij]
        have e1 : (Int.ofNat i).toNat = i := by
          simp only [Int.ofNat_eq_natCast]
          omega
        have e2 : (Int.ofNat j + 1 - Int.ofNat i).toNat = j + 1 - i := by
          simp only [Int.ofNat_eq_natCast]
          omega
        rw [e1, e2]
      · rw [if_neg (by simp only [Int.ofNat_eq_natCast]; omega), if_neg hij]

/-- C2: for every raw model response, the extractor takes the substring
from the first `{` through the last `}` and parses it as JSON; when no
such span exists, or the span fails to parse, the result is an
error-marker dictionary (an `"error"` key with a human-readable reason)
rather than an exception.  The example response parses to
`{"condition_tags": ["NSCLC"]}`, and a braceless response yields an error
marker. -/
theorem extract_llm_json_spec :
    ∀ r : String,
      (spanOfBraces r = none →
        extract_llm_json r = errObj "Could not extract JSON from LLM response") ∧
      (∀ s, spanOfBraces r = some s →
        (parseJson s = none →
          extract_llm_json r = errObj "Failed to parse JSON from LLM response") ∧
        (∀ j, parseJson s = some j → extract_llm_json r = j)) ∧
      extract_llm_json "Here is the JSON: \x7b\"condition_tags\": [\"NSCLC\"]\x7d Thanks!" =
        Json.obj [("condition_tags", Json.arr [Json.str "NSCLC"])] ∧
      jsonHasKey (extract_llm_json "no braces at all") "error" = true := by
  intro r
  have h := extract_eq_span r
  refine ⟨?_, ?_, by rfl, by rfl⟩
  · intro hs
    rw [h, hs]
  · intro s hs
    constructor
    · intro hp
      rw [h, hs]
      simp only [hp]
    · intro j hp
      rw [h, hs]
      simp only [hp]

theorem extract_llm_json_spec_witness :
    spanOfBraces "no json" = none ∧
    extract_llm_json "no json" = errObj "Could not extract JSON from LLM response" ∧
    spanOfBraces "{oops}" = some "{oops}" ∧
    parseJson "{oops}" = none ∧
    extract_llm_json "{oops}" = errObj "Failed to parse JSON from LLM response" := by
  refine ⟨by rfl, (extract_llm_json_spec "no json").1 (by rfl), by rfl, by rfl, ?_⟩
  exact ((extract_llm_json_spec "{oops}").2.1 "{oops}" (by rfl)).1 (by rfl)

theorem countMarks_append (a b : List Event) :
    countMarks (a ++ b) = countMarks a + countMarks b := by
  simp [countMarks, List.filter_append]

theorem processBatch_count :
    ∀ (respond : String → String) (fail : Nat → Bool) (ts : List String)
      (p : Nat) (db : DB) (evs : List Event)
      (p1 : Nat) (db1 : DB) (evs1 : List Event),
      processBatch respond fail ts p db evs = .ok (p1, db1, evs1) →
      p1 = p + ts.length ∧ countMarks evs1 = countMarks evs + ts.length := by
  intro respond fail ts
  induction ts with
  | nil =>
    intro p db evs p1 db1 evs1 h
    simp only [processBatch] at h
    cases h
    simp
  | cons nct rest ih =>
    intro p db evs p1 db1 evs1 h
    simp only [processBatch] at h
    by_cases herr : jsonHasKey (extract_llm_json (respond nct)) "error" = true
    · rw [if_pos herr] at h
      obtain ⟨hp, hm⟩ := ih _ _ _ _ _ _ h
      refine ⟨by rw [hp]; simp [List.length_cons]; omega, ?_⟩
      rw [hm, countMarks_append]
      have h1 : countMarks [Event.markProcessed nct false] = 1 := rfl
      rw [h1]
      simp [List.length_cons]
      omega
    · rw [if_neg herr] at h
      split at h
      · exact absurd h (by simp)
      · obtain ⟨hp, hm⟩ := ih _ _ _ _ _ _ h
        refine ⟨by rw [hp]; simp [List.length_cons]; omega, ?_⟩
        rw [hm, countMarks_append]
        have h1 : countMarks [Event.saveTags nct (extract_llm_json (respond nct)),
            Event.markProcessed nct true] = 1 := rfl
        rw [h1]
        simp [List.length_cons]
        omega

theorem driverLoop_invariant :
    ∀ (respond : String → String) (fail : Nat → Bool) (bs m fuel : Nat)
      (p rem : Nat) (db : DB) (evs : List Event)
      (c : Nat) (db1 : DB) (evs1 : List Event),
      p ≤ m → rem = m - p →
      driverLoop respond fail bs (some m) fuel p rem db evs = .ok (c, db1, evs1) →
      c ≤ m ∧ p ≤ c ∧ countMarks evs1 = countMarks evs + (c - p) := by
  intro respond fail bs m fuel
  induction fuel with
  | zero =>
    intro p rem db evs c db1 evs1 hp hrem h
    exact absurd h (by simp [driverLoop])
  | succ fuel ih =>
    intro p rem db evs c db1 evs1 hp hrem h
    subst hrem
    simp only [driverLoop] at h
    split at h
    · simp at h
    · cases h
      exact ⟨hp, le_refl _, by simp⟩
    · split at h
      · cases h
        refine ⟨hp, le_refl _, ?_⟩
        rw [countMarks_append]
        simp [countMarks]
      · split at h
        · simp at h
        · rename_i heqB
          obtain ⟨hcnt, hmarks⟩ := processBatch_count _ _ _ _ _ _ _ _ _ heqB
          have hlen : (find_unprocessed_trials db (min bs (m - p))).length ≤ m - p := by
            have h3 := find_length_le db (min bs (m - p))
            omega
          rename_i p1 db2 evs2
          have hp1 : p1 ≤ m := by omega
          have hrec := ih p1 (m - p1) db2 evs2 c db1 evs1 hp1 rfl h
          obtain ⟨h1, h2, h3⟩ := hrec
          refine ⟨h1, by omega, ?_⟩
          rw [h3, hmarks, countMarks_append]
          have h4 : countMarks [Event.fetch (min bs (m - p))] = 0 := rfl
          rw [h4]
          omega

/-- C3: for every run with an integer maximum, the driver never processes
more than the maximum and counts every fetched record (success or
failure) — the returned count equals the number of `markProcessed` calls.
Concretely, with 10 unprocessed records and a maximum of 3 (batch size
5), exactly 3 records are processed, `markProcessed` is called exactly 3
times, and the single fetch requested `min(5, 3) = 3` records; with batch
size 2 the fetches request `min(2, 3) = 2` then `min(2, 1) = 1`. -/
theorem process_trials_respects_max :
    (∀ (respond : String → String) (fail : Nat → Bool) (bs m : Nat) (db : DB) (c : Nat),
      runCount (process_trials respond fail bs (some m) db) = some c →
      c ≤ m ∧ runMarks (process_trials respond fail bs (some m) db) = some c) ∧
    runCount (process_trials respondTen noFail 5 (some 3) dbTen) = some 3 ∧
    runMarks (process_trials respondTen noFail 5 (some 3) dbTen) = some 3 ∧
    runFetches (process_trials respondTen noFail 5 (some 3) dbTen) = some [3] ∧
    runFetches (process_trials respondTen noFail 2 (some 3) dbTen) = some [2, 1] := by
  refine ⟨?_, by rfl, by rfl, by rfl, by rfl⟩
  intro respond fail bs m db c hc
  cases hrun : process_trials respond fail bs (some m) db with
  | error e =>
    rw [hrun] at hc
    simp [runCount] at hc
  | ok t =>
    obtain ⟨c1, db1, evs1⟩ := t
    rw [hrun] at hc
    simp only [runCount, Option.some.injEq] at hc
    subst hc
    have hrun2 := hrun
    unfold process_trials at hrun2
    have hinv := driverLoop_invariant respond fail bs m (m + 1) 0 m db [] c1 db1 evs1
      (Nat.zero_le m) rfl hrun2
    obtain ⟨h1, h2, h3⟩ := hinv
    refine ⟨h1, ?_⟩
    simp only [runMarks, Option.some.injEq]
    rw [h3]
    simp [countMarks]

theorem process_trials_respects_max_witness :
    3 ≤ 3 ∧ runMarks (process_trials respondTen noFail 5 (some 3) dbTen) = some 3 :=
  process_trials_respects_max.1 respondTen noFail 5 3 dbTen 3 (by rfl)

/-- C5: the batch driver terminates whenever a round's fetch returns zero
unprocessed records; with a store holding no unprocessed records, one
call returns a processed count of 0 and leaves the database untouched. -/
theorem process_trials_terminates_on_empty :
    ∀ (respond : String → String) (fail : Nat → Bool) (bs m : Nat) (db : DB),
      (∀ n, find_unprocessed_trials db n = []) →
      ∃ evs, process_trials respond fail bs (some m) db = .ok (0, db, evs) := by
  intro respond fail bs m db hfind
  by_cases hm : m = 0
  · subst hm
    exact ⟨[], rfl⟩
  · refine ⟨[Event.fetch (min bs m)], ?_⟩
    have hd : decide (m ≤ 0) = false := by simp [hm, Nat.pos_of_ne_zero]
    unfold process_trials
    simp only [Option.getD_some]
    simp only [driverLoop, pyGE, hd, hfind]
    rfl

theorem process_trials_terminates_on_empty_witness :
    runCount (process_trials respondTen noFail 5 (some 4) (DB.empty [] [])) = some 0 := by
  obtain ⟨evs, heq⟩ := process_trials_terminates_on_empty respondTen noFail 5 4
    (DB.empty [] []) (fun n => by simp [find_unprocessed_trials, DB.empty])
  rw [heq]
  rfl

/-- C6: a record whose extraction result carries an `"error"` key is
handled without calling `saveTags`: the driver marks it
`success = false` and continues with the remaining records of the batch,
and no run of the per-batch loop ever emits a `saveTags` call for such a
record. -/
theorem processBatch_error_isolated :
    ∀ (respond : String → String) (fail : Nat → Bool) (nct : String),
      jsonHasKey (extract_llm_json (respond nct)) "error" = true →
      (∀ (rest : List String) (p : Nat) (db : DB) (evs : List Event),
        processBatch respond fail (nct :: rest) p db evs =
          processBatch respond fail rest (p + 1)
            (mark_trial_processed db nct false 1 0)
            (evs ++ [Event.markProcessed nct false])) ∧
      (∀ (ts : List String) (p : Nat) (db : DB) (evs : List Event)
         (c : Nat) (db1 : DB) (evs1 : List Event),
        processBatch respond fail ts p db evs = .ok (c, db1, evs1) →
        ∀ t, Event.saveTags nct t ∈ evs1 → Event.saveTags nct t ∈ evs) := by
  intro respond fail nct herr
  constructor
  · intro rest p db evs
    simp [processBatch, herr]
  · intro ts
    induction ts with
    | nil =>
      intro p db evs c db1 evs1 h t hmem
      simp only [processBatch] at h
      cases h
      exact hmem
    | cons u rest ih =>
      intro p db evs c db1 evs1 h t hmem
      simp only [processBatch] at h
      by_cases hk : jsonHasKey (extract_llm_json (respond u)) "error" = true
      · rw [if_pos hk] at h
        have h2 := ih _ _ _ _ _ _ h t hmem
        rcases List.mem_append.mp h2 with h3 | h3
        · exact h3
        · have h4 := List.mem_singleton.mp h3
          simp at h4
      · rw [if_neg hk] at h
        split at h
        · simp at h
        · have h2 := ih _ _ _ _ _ _ h t hmem
          rcases List.mem_append.mp h2 with h3 | h3
          · exact h3
          · rcases List.mem_cons.mp h3 with h4 | h4
            · have hu : u = nct := by
                injection h4 with h5 h6
                exact h5.symm
              rw [hu] at hk
              exact absurd herr hk
            · have h5 := List.mem_singleton.mp h4
              simp at h5

theorem processBatch_error_isolated_witness :
    processBatch respondTen noFail ["T02", "T03"] 0 dbTen [] =
      processBatch respondTen noFail ["T03"] 1
        (mark_trial_processed dbTen "T02" false 1 0)
        ([] ++ [Event.markProcessed "T02" false]) :=
  (processBatch_error_isolated respondTen noFail "T02" (by rfl)).1 ["T03"] 0 dbTen []

theorem upsertScore_self_mem (l : List (String × String × Int)) (n s : String)
    (v : Int) : (n, s, v) ∈ upsertScore l n s v := by
  unfold upsertScore
  split
  · rename_i hany
    rw [List.any_eq_true] at hany
    obtain ⟨r, hr, hmatch⟩ := hany
    refine List.mem_map.mpr ⟨r, hr, ?_⟩
    rw [if_pos hmatch]
  · exact List.mem_append_right _ (List.mem_singleton.mpr rfl)

theorem upsertScore_key_mem (l : List (String × String × Int)) (n s : String)
    (v : Int) (a b : String) (h : ∃ sc, (a, b, sc) ∈ l) :
    ∃ sc, (a, b, sc) ∈ upsertScore l n s v := by
  obtain ⟨sc, hmem⟩ := h
  unfold upsertScore
  split
  · by_cases hab : ((a, b, sc).1 == n && (a, b, sc).2.1 == s) = true
    · refine ⟨v, List.mem_map.mpr ⟨(a, b, sc), hmem, ?_⟩⟩
      rw [if_pos hab]
      simp only [Bool.and_eq_true, beq_iff_eq] at hab
      obtain ⟨h1, h2⟩ := hab
      rw [h1, h2]
    · refine ⟨sc, List.mem_map.mpr ⟨(a, b, sc), hmem, ?_⟩⟩
      rw [if_neg hab]
  · exact ⟨sc, List.mem_append_left _ hmem⟩

theorem upsertScore_mem_elim (l : List (String × String × Int)) (n s : String)
    (v : Int) (r : String × String × Int) (h : r ∈ upsertScore l n s v) :
    r ∈ l ∨ r = (n, s, v) := by
  unfold upsertScore at h
  split at h
  · rcases List.mem_map.mp h with ⟨r0, hr0, heq⟩
    by_cases hm : (r0.1 == n && r0.2.1 == s) = true
    · rw [if_pos hm] at heq
      exact Or.inr heq.symm
    · rw [if_neg hm] at heq
      exact Or.inl (heq ▸ hr0)
  · rcases List.mem_append.mp h with h1 | h1
    · exact Or.inl h1
    · exact Or.inr (List.mem_singleton.mp h1)

theorem upsertScore_mem_preserve (l : List (String × String × Int))
    (n s : String) (v : Int) (r : String × String × Int) (hr : r ∈ l)
    (hne : r.2.1 ≠ s) : r ∈ upsertScore l n s v := by
  unfold upsertScore
  split
  · refine List.mem_map.mpr ⟨r, hr, ?_⟩
    rw [if_neg]
    intro hc
    simp only [Bool.and_eq_true, beq_iff_eq] at hc
    exact hne hc.2
  · exact List.mem_append_left _ hr

theorem linkPair_self_mem (l : List (String × String)) (n s : String) :
    (n, s) ∈ linkPair l n s := by
  unfold linkPair
  split
  · rename_i hany
    rw [List.any_eq_true] at hany
    obtain ⟨r, hr, hmatch⟩ := hany
    simp only [Bool.and_eq_true, beq_iff_eq] at hmatch
    have hx : (n, s) = r := by
      rw [← hmatch.1, ← hmatch.2]
    exact hx ▸ hr
  · exact List.mem_append_right _ (List.mem_singleton.mpr rfl)

theorem linkPair_mem_mono (l : List (String × String)) (n s : String)
    (r : String × String) (hr : r ∈ l) : r ∈ linkPair l n s := by
  unfold linkPair
  split
  · exact hr
  · exact List.mem_append_left _ hr

theorem linkCriteria_self_mem (l : List (String × String × String))
    (n s ty : String) : (n, s, ty) ∈ linkCriteria l n s ty := by
  unfold linkCriteria
  split
  · rename_i hany
    rw [List.any_eq_true] at hany
    obtain ⟨r, hr, hmatch⟩ := hany
    simp only [Bool.and_eq_true, beq_iff_eq] at hmatch
    obtain ⟨⟨h1, h2⟩, h3⟩ := hmatch
    have hx : (n, s, ty) = r := by
      rw [← h1, ← h2, ← h3]
    exact hx ▸ hr
  · exact List.mem_append_right _ (List.mem_singleton.mpr rfl)

theorem linkCriteria_mem_mono (l : List (String × String × String))
    (n s ty : String) (r : String × String × String) (hr : r ∈ l) :
    r ∈ linkCriteria l n s ty := by
  unfold linkCriteria
  split
  · exact hr
  · exact List.mem_append_left _ hr

theorem upsertSummary_self_mem (l : List (String × String)) (n s : String) :
    (n, s) ∈ upsertSummary l n s := by
  unfold upsertSummary
  split
  · rename_i hany
    rw [List.any_eq_true] at hany
    obtain ⟨r, hr, hmatch⟩ := hany
    refine List.mem_map.mpr ⟨r, hr, ?_⟩
    rw [if_pos hmatch]
  · exact List.mem_append_right _ (List.mem_singleton.mpr rfl)

theorem condStep_char (fail : Nat → Bool) (nct : String) (c : Json)
    (st st1 : St) (h : condStep fail nct c st = .ok st1) :
    ∃ s, c = Json.str s ∧
      st1 = ({ st.1 with
                conditionTags := insertName st.1.conditionTags s,
                trialConditions := upsertScore st.1.trialConditions nct s 5 },
             st.2 + 2) := by
  cases c <;> simp only [condStep, asStr] at h
  case str s =>
    refine ⟨s, rfl, ?_⟩
    by_cases hf1 : fail st.2 = true
    · simp [dbStep, hf1] at h
    · by_cases hf2 : fail (st.2 + 1) = true
      · simp [dbStep, hf1, hf2] at h
      · simp [dbStep, hf1, hf2] at h
        rw [← h]
  all_goals exact Except.noConfusion h

theorem condLoop_char (fail : Nat → Bool) (nct : String) :
    ∀ (cs : List Json) (st st1 : St),
      condLoop fail nct cs st = .ok st1 →
      ∃ ct tc k, st1 = ({ st.1 with conditionTags := ct, trialConditions := tc }, k) := by
  intro cs
  induction cs with
  | nil =>
    intro st st1 h
    simp only [condLoop] at h
    cases h
    exact ⟨st.1.conditionTags, st.1.trialConditions, st.2, rfl⟩
  | cons c rest ih =>
    intro st st1 h
    simp only [condLoop] at h
    split at h
    · simp at h
    · rename_i st2 heq
      obtain ⟨s, hc, hst2⟩ := condStep_char fail nct c st st2 heq
      obtain ⟨ct, tc, k, hst1⟩ := ih st2 st1 h
      subst hst2
      exact ⟨ct, tc, k, hst1⟩

theorem condLoop_key_mono (fail : Nat → Bool) (nct : String) :
    ∀ (cs : List Json) (st st1 : St) (a b : String),
      condLoop fail nct cs st = .ok st1 →
      (∃ sc, (a, b, sc) ∈ st.1.trialConditions) →
      ∃ sc, (a, b, sc) ∈ st1.1.trialConditions := by
  intro cs
  induction cs with
  | nil =>
    intro st st1 a b h hm
    simp only [condLoop] at h
    cases h
    exact hm
  | cons c rest ih =>
    intro st st1 a b h hm
    simp only [condLoop] at h
    split at h
    · simp at h
    · rename_i st2 heq
      obtain ⟨s, hc, hst2⟩ := condStep_char fail nct c st st2 heq
      refine ih st2 st1 a b h ?_
      subst hst2
      exact upsertScore_key_mem _ nct s 5 a b hm

theorem condLoop_ensures (fail : Nat → Bool) (nct : String) :
    ∀ (cs : List Json) (st st1 : St) (s : String),
      condLoop fail nct cs st = .ok st1 →
      Json.str s ∈ cs →
      ∃ sc, (nct, s, sc) ∈ st1.1.trialConditions := by
  intro cs
  induction cs with
  | nil =>
    intro st st1 s h hm
    exact absurd hm (List.not_mem_nil _)
  | cons c rest ih =>
    intro st st1 s h hm
    simp only [condLoop] at h
    split at h
    · simp at h
    · rename_i st2 heq
      obtain ⟨s0, hc, hst2⟩ := condStep_char fail nct c st st2 heq
      rcases List.mem_cons.mp hm with h1 | h1
      · have hs : s0 = s := by
          have h2 : Json.str s = Json.str s0 := h1.trans hc
          injection h2 with h3
          exact h3.symm
        refine condLoop_key_mono fail nct rest st2 st1 nct s h ?_
        subst hst2
        subst hs
        exact ⟨5, upsertScore_self_mem _ nct s0 5⟩
      · exact ih st2 st1 s h h1

theorem condLoop_elim5 (fail : Nat → Bool) (nct : String) :
    ∀ (cs : List Json) (st st1 : St) (r : String × String × Int),
      condLoop fail nct cs st = .ok st1 →
      r ∈ st1.1.trialConditions →
      r ∈ st.1.trialConditions ∨ r.2.2 = 5 := by
  intro cs
  induction cs with
  | nil =>
    intro st st1 r h hm
    simp only [condLoop] at h
    cases h
    exact Or.inl hm
  | cons c rest ih =>
    intro st st1 r h hm
    simp only [condLoop] at h
    split at h
    · simp at h
    · rename_i st2 heq
      obtain ⟨s, hc, hst2⟩ := condStep_char fail nct c st st2 heq
      rcases ih st2 st1 r h hm with h1 | h1
      · subst hst2
        rcases upsertScore_mem_elim _ nct s 5 r h1 with h2 | h2
        · exact Or.inl h2
        · right
          rw [h2]
      · exact Or.inr h1

theorem mechStep_char (fail : Nat → Bool) (nct : String) (c : Json)
    (st st1 : St) (h : mechStep fail nct c st = .ok st1) :
    ∃ s, c = Json.str s ∧
      st1 = ({ st.1 with
                mechanismCategories := insertName st.1.mechanismCategories s,
                trialMechanisms := upsertScore st.1.trialMechanisms nct s 5 },
             st.2 + 2) := by
  cases c <;> simp only [mechStep, asStr] at h
  case str s =>
    refine ⟨s, rfl, ?_⟩
    by_cases hf1 : fail st.2 = true
    · simp [dbStep, hf1] at h
    · by_cases hf2 : fail (st.2 + 1) = true
      · simp [dbStep, hf1, hf2] at h
      · simp [dbStep, hf1, hf2] at h
        rw [← h]
  all_goals exact Except.noConfusion h

theorem mechLoop_char (fail : Nat → Bool) (nct : String) :
    ∀ (cs : List Json) (st st1 : St),
      mechLoop fail nct cs st = .ok st1 →
      ∃ mc tm k, st1 = ({ st.1 with mechanismCategories := mc, trialMechanisms := tm }, k) := by
  intro cs
  induction cs with
  | nil =>
    intro st st1 h
    simp only [mechLoop] at h
    cases h
    exact ⟨st.1.mechanismCategories, st.1.trialMechanisms, st.2, rfl⟩
  | cons c rest ih =>
    intro st st1 h
    simp only [mechLoop] at h
    split at h
    · simp at h
    · rename_i st2 heq
      obtain ⟨s, hc, hst2⟩ := mechStep_char fail nct c st st2 heq
      obtain ⟨mc, tm, k, hst1⟩ := ih st2 st1 h
      subst hst2
      exact ⟨mc, tm, k, hst1⟩

theorem mechLoop_key_mono (fail : Nat → Bool) (nct : String) :
    ∀ (cs : List Json) (st st1 : St) (a b : String),
      mechLoop fail nct cs st = .ok st1 →
      (∃ sc, (a, b, sc) ∈ st.1.trialMechanisms) →
      ∃ sc, (a, b, sc) ∈ st1.1.trialMechanisms := by
  intro cs
  induction cs with
  | nil =>
    intro st st1 a b h hm
    simp only [mechLoop] at h
    cases h
    exact hm
  | cons c rest ih =>
    intro st st1 a b h hm
    simp only [mechLoop] at h
    split at h
    · simp at h
    · rename_i st2 heq
      obtain ⟨s, hc, hst2⟩ := mechStep_char fail nct c st st2 heq
      refine ih st2 st1 a b h ?_
      subst hst2
      exact upsertScore_key_mem _ nct s 5 a b hm

theorem mechLoop_ensures (fail : Nat → Bool) (nct : String) :
    ∀ (cs : List Json) (st st1 : St) (s : String),
      mechLoop fail nct cs st = .ok st1 →
      Json.str s ∈ cs →
      ∃ sc, (nct, s, sc) ∈ st1.1.trialMechanisms := by
  intro cs
  induction cs with
  | nil =>
    intro st st1 s h hm
    exact absurd hm (List.not_mem_nil _)
  | cons c rest ih =>
    intro st st1 s h hm
    simp only [mechLoop] at h
    split at h
    · simp at h
    · rename_i st2 heq
      obtain ⟨s0, hc, hst2⟩ := mechStep_char fail nct c st st2 heq
      rcases List.mem_cons.mp hm with h1 | h1
      · have hs : s0 = s := by
          have h2 : Json.str s = Json.str s0 := h1.trans hc
          injection h2 with h3
          exact h3.symm
        refine mechLoop_key_mono fail nct rest st2 st1 nct s h ?_
        subst hst2
        subst hs
        exact ⟨5, upsertScore_self_mem _ nct s0 5⟩
      · exact ih st2 st1 s h h1

theorem mechLoop_elim5 (fail : Nat → Bool) (nct : String) :
    ∀ (cs : List Json) (st st1 : St) (r : String × String × Int),
      mechLoop fail nct cs st = .ok st1 →
      r ∈ st1.1.trialMechanisms →
      r ∈ st.1.trialMechanisms ∨ r.2.2 = 5 := by
  intro cs
  induction cs with
  | nil =>
    intro st st1 r h hm
    simp only [mechLoop] at h
    cases h
    exact Or.inl hm
  | cons c rest ih =>
    intro st st1 r h hm
    simp only [mechLoop] at h
    split at h
    · simp at h
    · rename_i st2 heq
      obtain ⟨s, hc, hst2⟩ := mechStep_char fail nct c st st2 heq
      rcases ih st2 st1 r h hm with h1 | h1
      · subst hst2
        rcases upsertScore_mem_elim _ nct s 5 r h1 with h2 | h2
        · exact Or.inl h2
        · right
          rw [h2]
      · exact Or.inr h1

theorem targetStep_char (fail : Nat → Bool) (nct : String) (c : Json)
    (st st1 : St) (h : targetStep fail nct c st = .ok st1) :
    ∃ s, c = Json.str s ∧
      st1 = ({ st.1 with
                treatmentTargets := insertName st.1.treatmentTargets s,
                trialTargets := linkPair st.1.trialTargets nct s },
             st.2 + 2) := by
  cases c <;> simp only [targetStep, asStr] at h
  case str s =>
    refine ⟨s, rfl, ?_⟩
    by_cases hf1 : fail st.2 = true
    · simp [dbStep, hf1] at h
    · by_cases hf2 : fail (st.2 + 1) = true
      · simp [dbStep, hf1, hf2] at h
      · simp [dbStep, hf1, hf2] at h
        rw [← h]
  all_goals exact Except.noConfusion h

theorem targetLoop_char (fail : Nat → Bool) (nct : String) :
    ∀ (cs : List Json) (st st1 : St),
      targetLoop fail nct cs st = .ok st1 →
      ∃ tt tl k, st1 = ({ st.1 with treatmentTargets := tt, trialTargets := tl }, k) := by
  intro cs
  induction cs with
  | nil =>
    intro st st1 h
    simp only [targetLoop] at h
    cases h
    exact ⟨st.1.treatmentTargets, st.1.trialTargets, st.2, rfl⟩
  | cons c rest ih =>
    intro st st1 h
    simp only [targetLoop] at h
    split at h
    · simp at h
    · rename_i st2 heq
      obtain ⟨s, hc, hst2⟩ := targetStep_char fail nct c st st2 heq
      obtain ⟨tt, tl, k, hst1⟩ := ih st2 st1 h
      subst hst2
      exact ⟨tt, tl, k, hst1⟩

theorem targetLoop_mem_mono (fail : Nat → Bool) (nct : String) :
    ∀ (cs : List Json) (st st1 : St) (r : String × String),
      targetLoop fail nct cs st = .ok st1 →
      r ∈ st.1.trialTargets → r ∈ st1.1.trialTargets := by
  intro cs
  induction cs with
  | nil =>
    intro st st1 r h hm
    simp only [targetLoop] at h
    cases h
    exact hm
  | cons c rest ih =>
    intro st st1 r h hm
    simp only [targetLoop] at h
    split at h
    · simp at h
    · rename_i st2 heq
      obtain ⟨s, hc, hst2⟩ := targetStep_char fail nct c st st2 heq
      refine ih st2 st1 r h ?_
      subst hst2
      exact linkPair_mem_mono _ nct s r hm

theorem targetLoop_ensures (fail : Nat → Bool) (nct : String) :
    ∀ (cs : List Json) (st st1 : St) (s : String),
      targetLoop fail nct cs st = .ok st1 →
      Json.str s ∈ cs →
      (nct, s) ∈ st1.1.trialTargets := by
  intro cs
  induction cs with
  | nil =>
    intro st st1 s h hm
    exact absurd hm (List.not_mem_nil _)
  | cons c rest ih =>
    intro st st1 s h hm
    simp only [targetLoop] at h
    split at h
    · simp at h
    · rename_i st2 heq
      obtain ⟨s0, hc, hst2⟩ := targetStep_char fail nct c st st2 heq
      rcases List.mem_cons.mp hm with h1 | h1
      · have hs : s0 = s := by
          have h2 : Json.str s = Json.str s0 := h1.trans hc
          injection h2 with h3
          exact h3.symm
        refine targetLoop_mem_mono fail nct rest st2 st1 (nct, s) h ?_
        subst hst2
        subst hs
        exact linkPair_self_mem _ nct s0
      · exact ih st2 st1 s h h1

theorem critStep_char (fail : Nat → Bool) (nct ty : String) (c : Json)
    (st st1 : St) (h : critStep fail nct ty c st = .ok st1) :
    ∃ s, c = Json.str s ∧
      st1 = ({ st.1 with
                criteriaTags := insertCriteriaTag st.1.criteriaTags s ty,
                trialCriteria := linkCriteria st.1.trialCriteria nct s ty },
             st.2 + 2) := by
  cases c <;> simp only [critStep, asStr] at h
  case str s =>
    refine ⟨s, rfl, ?_⟩
    by_cases hf1 : fail st.2 = true
    · simp [dbStep, hf1] at h
    · by_cases hf2 : fail (st.2 + 1) = true
      · simp [dbStep, hf1, hf2] at h
      · simp [dbStep, hf1, hf2] at h
        rw [← h]
  all_goals exact Except.noConfusion h

theorem critLoop_char (fail : Nat → Bool) (nct ty : String) :
    ∀ (cs : List Json) (st st1 : St),
      critLoop fail nct ty cs st = .ok st1 →
      ∃ ctg tcr k, st1 = ({ st.1 with criteriaTags := ctg, trialCriteria := tcr }, k) := by
  intro cs
  induction cs with
  | nil =>
    intro st st1 h
    simp only [critLoop] at h
    cases h
    exact ⟨st.1.criteriaTags, st.1.trialCriteria, st.2, rfl⟩
  | cons c rest ih =>
    intro st st1 h
    simp only [critLoop] at h
    split at h
    · simp at h
    · rename_i st2 heq
      obtain ⟨s, hc, hst2⟩ := critStep_char fail nct ty c st st2 heq
      obtain ⟨ctg, tcr, k, hst1⟩ := ih st2 st1 h
      subst hst2
      exact ⟨ctg, tcr, k, hst1⟩

theorem critLoop_mem_mono (fail : Nat → Bool) (nct ty : String) :
    ∀ (cs : List Json) (st st1 : St) (r : String × String × String),
      critLoop fail nct ty cs st = .ok st1 →
      r ∈ st.1.trialCriteria → r ∈ st1.1.trialCriteria := by
  intro cs
  induction cs with
  | nil =>
    intro st st1 r h hm
    simp only [critLoop] at h
    cases h
    exact hm
  | cons c rest ih =>
    intro st st1 r h hm
    simp only [critLoop] at h
    split at h
    · simp at h
    · rename_i st2 heq
      obtain ⟨s, hc, hst2⟩ := critStep_char fail nct ty c st st2 heq
      refine ih st2 st1 r h ?_
      subst hst2
      exact linkCriteria_mem_mono _ nct s ty r hm

theorem critLoop_ensures (fail : Nat → Bool) (nct ty : String) :
    ∀ (cs : List Json) (st st1 : St) (s : String),
      critLoop fail nct ty cs st = .ok st1 →
      Json.str s ∈ cs →
      (nct, s, ty) ∈ st1.1.trialCriteria := by
  intro cs
  induction cs with
  | nil =>
    intro st st1 s h hm
    exact absurd hm (List.not_mem_nil _)
  | cons c rest ih =>
    intro st st1 s h hm
    simp only [critLoop] at h
    split at h
    · simp at h
    · rename_i st2 heq
      obtain ⟨s0, hc, hst2⟩ := critStep_char fail nct ty c st st2 heq
      rcases List.mem_cons.mp hm with h1 | h1
      · have hs : s0 = s := by
          have h2 : Json.str s = Json.str s0 := h1.trans hc
          injection h2 with h3
          exact h3.symm
        refine critLoop_mem_mono fail nct ty rest st2 st1 (nct, s, ty) h ?_
        subst hst2
        subst hs
        exact linkCriteria_self_mem _ nct s0 ty
      · exact ih st2 st1 s h h1

theorem stageStep_char (fail : Nat → Bool) (nct : String) (kv : String × Json)
    (st st1 : St) (h : stageStep fail nct kv st = .ok st1) :
    (st.1.diseaseStages.any (fun x => x == kv.1) = false ∧ st1 = (st.1, st.2 + 1)) ∨
    (∃ n, kv.2 = Json.num n ∧
      st.1.diseaseStages.any (fun x => x == kv.1) = true ∧
      st1 = ({ st.1 with
                trialStageRelevance := upsertScore st.1.trialStageRelevance nct kv.1 n },
             st.2 + 2)) := by
  obtain ⟨k, v⟩ := kv
  by_cases hf1 : fail st.2 = true
  · simp [stageStep, dbQuery, hf1] at h
  · by_cases hfd : st.1.diseaseStages.any (fun x => x == k) = true
    · right
      simp [stageStep, dbQuery, hf1, hfd] at h
      cases v <;> simp only [asInt] at h
      all_goals try exact Except.noConfusion h
      rename_i n
      refine ⟨n, rfl, hfd, ?_⟩
      by_cases hf2 : fail (st.2 + 1) = true
      · simp [dbStep, hf2] at h
      · simp [dbStep, hf2] at h
        rw [← h]
    · left
      have hfd2 : st.1.diseaseStages.any (fun x => x == k) = false :=
        Bool.eq_false_iff.mpr hfd
      simp [stageStep, dbQuery, hf1, hfd2] at h
      refine ⟨hfd2, ?_⟩
      rw [← h]

theorem any_beq_eq_mem (l : List String) (k : String) :
    (l.any fun x => x == k) = true ↔ k ∈ l := by
  rw [List.any_eq_true]
  constructor
  · rintro ⟨x, hx, he⟩
    rw [beq_iff_eq] at he
    exact he ▸ hx
  · intro hk
    exact ⟨k, hk, by simp⟩

theorem stageLoop_char (fail : Nat → Bool) (nct : String) :
    ∀ (kvs : List (String × Json)) (st st1 : St),
      stageLoop fail nct kvs st = .ok st1 →
      ∃ tsr k0, st1 = ({ st.1 with trialStageRelevance := tsr }, k0) := by
  intro kvs
  induction kvs with
  | nil =>
    intro st st1 h
    simp only [stageLoop] at h
    cases h
    exact ⟨st.1.trialStageRelevance, st.2, rfl⟩
  | cons kv rest ih =>
    intro st st1 h
    simp only [stageLoop] at h
    split at h
    · simp at h
    · rename_i st2 heq
      rcases stageStep_char fail nct kv st st2 heq with ⟨hfd, hst2⟩ | ⟨n, hv, hfd, hst2⟩
      · obtain ⟨tsr, k0, hst1⟩ := ih st2 st1 h
        subst hst2
        exact ⟨tsr, k0, hst1⟩
      · obtain ⟨tsr, k0, hst1⟩ := ih st2 st1 h
        subst hst2
        exact ⟨tsr, k0, hst1⟩

theorem stageLoop_key_mono (fail : Nat → Bool) (nct : String) :
    ∀ (kvs : List (String × Json)) (st st1 : St) (a b : String),
      stageLoop fail nct kvs st = .ok st1 →
      (∃ sc, (a, b, sc) ∈ st.1.trialStageRelevance) →
      ∃ sc, (a, b, sc) ∈ st1.1.trialStageRelevance := by
  intro kvs
  induction kvs with
  | nil =>
    intro st st1 a b h hm
    simp only [stageLoop] at h
    cases h
    exact hm
  | cons kv rest ih =>
    intro st st1 a b h hm
    simp only [stageLoop] at h
    split at h
    · simp at h
    · rename_i st2 heq
      rcases stageStep_char fail nct kv st st2 heq with ⟨hfd, hst2⟩ | ⟨n, hv, hfd, hst2⟩
      · refine ih st2 st1 a b h ?_
        subst hst2
        exact hm
      · refine ih st2 st1 a b h ?_
        subst hst2
        exact upsertScore_key_mem _ nct kv.1 n a b hm

theorem stageLoop_new_keys (fail : Nat → Bool) (nct : String) :
    ∀ (kvs : List (String × Json)) (st st1 : St) (r : String × String × Int),
      stageLoop fail nct kvs st = .ok st1 →
      r ∈ st1.1.trialStageRelevance →
      r ∈ st.1.trialStageRelevance ∨ r.2.1 ∈ st.1.diseaseStages := by
  intro kvs
  induction kvs with
  | nil =>
    intro st st1 r h hm
    simp only [stageLoop] at h
    cases h
    exact Or.inl hm
  | cons kv rest ih =>
    intro st st1 r h hm
    simp only [stageLoop] at h
    split at h
    · simp at h
    · rename_i st2 heq
      rcases stageStep_char fail nct kv st st2 heq with ⟨hfd, hst2⟩ | ⟨n, hv, hfd, hst2⟩
      · rcases ih st2 st1 r h hm with h1 | h1
        · subst hst2
          exact Or.inl h1
        · subst hst2
          exact Or.inr h1
      · rcases ih st2 st1 r h hm with h1 | h1
        · subst hst2
          rcases upsertScore_mem_elim _ nct kv.1 n r h1 with h2 | h2
          · exact Or.inl h2
          · right
            rw [h2]
            exact (any_beq_eq_mem _ kv.1).mp hfd
        · subst hst2
          exact Or.inr h1

theorem stageLoop_preserve (fail : Nat → Bool) (nct : String) :
    ∀ (kvs : List (String × Json)) (st st1 : St) (r : String × String × Int),
      stageLoop fail nct kvs st = .ok st1 →
      r ∈ st.1.trialStageRelevance →
      (∀ p ∈ kvs, p.1 ≠ r.2.1) →
      r ∈ st1.1.trialStageRelevance := by
  intro kvs
  induction kvs with
  | nil =>
    intro st st1 r h hm hk
    simp only [stageLoop] at h
    cases h
    exact hm
  | cons kv rest ih =>
    intro st st1 r h hm hk
    simp only [stageLoop] at h
    split at h
    · simp at h
    · rename_i st2 heq
      have hkrest : ∀ p ∈ rest, p.1 ≠ r.2.1 :=
        fun p hp => hk p (List.mem_cons_of_mem _ hp)
      rcases stageStep_char fail nct kv st st2 heq with ⟨hfd, hst2⟩ | ⟨n, hv, hfd, hst2⟩
      · refine ih st2 st1 r h ?_ hkrest
        subst hst2
        exact hm
      · refine ih st2 st1 r h ?_ hkrest
        subst hst2
        refine upsertScore_mem_preserve _ nct kv.1 n r hm ?_
        intro hc
        exact hk kv (List.mem_cons_self _ _) (hc ▸ rfl)

theorem stageLoop_key_ensures (fail : Nat → Bool) (nct : String) :
    ∀ (kvs : List (String × Json)) (st st1 : St) (k : String) (n : Int),
      stageLoop fail nct kvs st = .ok st1 →
      (k, Json.num n) ∈ kvs →
      k ∈ st.1.diseaseStages →
      ∃ sc, (nct, k, sc) ∈ st1.1.trialStageRelevance := by
  intro kvs
  induction kvs with
  | nil =>
    intro st st1 k n h hm hreg
    exact absurd hm (List.not_mem_nil _)
  | cons kv rest ih =>
    intro st st1 k n h hm hreg
    simp only [stageLoop] at h
    split at h
    · simp at h
    · rename_i st2 heq
      rcases List.mem_cons.mp hm with h1 | h1
      · subst h1
        rcases stageStep_char fail nct (k, Json.num n) st st2 heq with ⟨hfd, hst2⟩ | ⟨m, hv, hfd, hst2⟩
        · exfalso
          rw [Bool.eq_false_iff] at hfd
          exact hfd ((any_beq_eq_mem _ k).mpr hreg)
        · refine stageLoop_key_mono fail nct rest st2 st1 nct k h ?_
          subst hst2
          exact ⟨m, upsertScore_self_mem _ nct k m⟩
      · rcases stageStep_char fail nct kv st st2 heq with ⟨hfd, hst2⟩ | ⟨m, hv, hfd, hst2⟩
        · refine ih st2 st1 k n h h1 ?_
          subst hst2
          exact hreg
        · refine ih st2 st1 k n h h1 ?_
          subst hst2
          exact hreg

theorem stageLoop_ensures_nodup (fail : Nat → Bool) (nct : String) :
    ∀ (kvs : List (String × Json)) (st st1 : St) (k : String) (n : Int),
      stageLoop fail nct kvs st = .ok st1 →
      (kvs.map Prod.fst).Nodup →
      (k, Json.num n) ∈ kvs →
      k ∈ st.1.diseaseStages →
      (nct, k, n) ∈ st1.1.trialStageRelevance := by
  intro kvs
  induction kvs with
  | nil =>
    intro st st1 k n h hnd hm hreg
    exact absurd hm (List.not_mem_nil _)
  | cons kv rest ih =>
    intro st st1 k n h hnd hm hreg
    simp only [stageLoop] at h
    split at h
    · simp at h
    · rename_i st2 heq
      rcases List.mem_cons.mp hm with h1 | h1
      · subst h1
        rcases stageStep_char fail nct (k, Json.num n) st st2 heq with ⟨hfd, hst2⟩ | ⟨m, hv, hfd, hst2⟩
        · exfalso
          rw [Bool.eq_false_iff] at hfd
          exact hfd ((any_beq_eq_mem _ k).mpr hreg)
        · have hn : m = n := by
            injection hv with h2
            exact h2.symm
          refine stageLoop_preserve fail nct rest st2 st1 (nct, k, n) h ?_ ?_
          · subst hst2
            rw [hn]
            exact upsertScore_self_mem _ nct k n
          · intro p hp hpk
            simp only [List.map_cons, List.nodup_cons] at hnd
            apply hnd.1
            have hmem : p.1 ∈ List.map Prod.fst rest := List.mem_map_of_mem Prod.fst hp
            rw [hpk] at hmem
            exact hmem
      · rcases stageStep_char fail nct kv st st2 heq with ⟨hfd, hst2⟩ | ⟨m, hv, hfd, hst2⟩
        · refine ih st2 st1 k n h ?_ h1 ?_
          · simp only [List.map_cons, List.nodup_cons] at hnd
            exact hnd.2
          · subst hst2
            exact hreg
        · refine ih st2 st1 k n h ?_ h1 ?_
          · simp only [List.map_cons, List.nodup_cons] at hnd
            exact hnd.2
          · subst hst2
            exact hreg

theorem condPhase_char (fail : Nat → Bool) (nct : String) (tags : Json)
    (st st1 : St) (h : condPhase fail nct tags st = .ok st1) :
    ∃ ct tc k, st1 = ({ st.1 with conditionTags := ct, trialConditions := tc }, k) := by
  unfold condPhase at h
  split at h
  · cases h
    exact ⟨st.1.conditionTags, st.1.trialConditions, st.2, rfl⟩
  · rename_i v hv
    split at h
    · simp at h
    · rename_i xs hxs
      exact condLoop_char fail nct xs st st1 h

theorem condPhase_ensures (fail : Nat → Bool) (nct : String) (tags : Json)
    (st st1 : St) (v : Json) (s : String)
    (h : condPhase fail nct tags st = .ok st1)
    (hv : jGet tags "condition_tags" = some v)
    (hmem : Json.str s ∈ elemsL v) :
    ∃ sc, (nct, s, sc) ∈ st1.1.trialConditions := by
  unfold condPhase at h
  simp only [hv] at h
  cases v <;> simp only [elemsE] at h
  case arr xs =>
    exact condLoop_ensures fail nct xs st st1 s h (by simpa [elemsL] using hmem)
  all_goals exact Except.noConfusion h

theorem condPhase_elim5 (fail : Nat → Bool) (nct : String) (tags : Json)
    (st st1 : St) (r : String × String × Int)
    (h : condPhase fail nct tags st = .ok st1)
    (hmem : r ∈ st1.1.trialConditions) :
    r ∈ st.1.trialConditions ∨ r.2.2 = 5 := by
  unfold condPhase at h
  split at h
  · cases h
    exact Or.inl hmem
  · rename_i v hv
    split at h
    · simp at h
    · rename_i xs hxs
      exact condLoop_elim5 fail nct xs st st1 r h hmem

theorem mechPhase_char (fail : Nat → Bool) (nct : String) (tags : Json)
    (st st1 : St) (h : mechPhase fail nct tags st = .ok st1) :
    ∃ mc tm k, st1 = ({ st.1 with mechanismCategories := mc, trialMechanisms := tm }, k) := by
  unfold mechPhase at h
  split at h
  · cases h
    exact ⟨st.1.mechanismCategories, st.1.trialMechanisms, st.2, rfl⟩
  · rename_i v hv
    split at h
    · simp at h
    · rename_i xs hxs
      exact mechLoop_char fail nct xs st st1 h

theorem mechPhase_ensures (fail : Nat → Bool) (nct : String) (tags : Json)
    (st st1 : St) (v : Json) (s : String)
    (h : mechPhase fail nct tags st = .ok st1)
    (hv : jGet tags "mechanisms" = some v)
    (hmem : Json.str s ∈ elemsL v) :
    ∃ sc, (nct, s, sc) ∈ st1.1.trialMechanisms := by
  unfold mechPhase at h
  simp only [hv] at h
  cases v <;> simp only [elemsE] at h
  case arr xs =>
    exact mechLoop_ensures fail nct xs st st1 s h (by simpa [elemsL] using hmem)
  all_goals exact Except.noConfusion h

theorem mechPhase_elim5 (fail : Nat → Bool) (nct : String) (tags : Json)
    (st st1 : St) (r : String × String × Int)
    (h : mechPhase fail nct tags st = .ok st1)
    (hmem : r ∈ st1.1.trialMechanisms) :
    r ∈ st.1.trialMechanisms ∨ r.2.2 = 5 := by
  unfold mechPhase at h
  split at h
  · cases h
    exact Or.inl hmem
  · rename_i v hv
    split at h
    · simp at h
    · rename_i xs hxs
      exact mechLoop_elim5 fail nct xs st st1 r h hmem

theorem targetPhase_char (fail : Nat → Bool) (nct : String) (tags : Json)
    (st st1 : St) (h : targetPhase fail nct tags st = .ok st1) :
    ∃ tt tl k, st1 = ({ st.1 with treatmentTargets := tt, trialTargets := tl }, k) := by
  unfold targetPhase at h
  split at h
  · cases h
    exact ⟨st.1.treatmentTargets, st.1.trialTargets, st.2, rfl⟩
  · rename_i v hv
    split at h
    · simp at h
    · rename_i xs hxs
      exact targetLoop_char fail nct xs st st1 h

theorem targetPhase_ensures (fail : Nat → Bool) (nct : String) (tags : Json)
    (st st1 : St) (v : Json) (s : String)
    (h : targetPhase fail nct tags st = .ok st1)
    (hv : jGet tags "treatment_targets" = some v)
    (hmem : Json.str s ∈ elemsL v) :
    (nct, s) ∈ st1.1.trialTargets := by
  unfold targetPhase at h
  simp only [hv] at h
  cases v <;> simp only [elemsE] at h
  case arr xs =>
    exact targetLoop_ensures fail nct xs st st1 s h (by simpa [elemsL] using hmem)
  all_goals exact Except.noConfusion h

theorem eligPhase_char (fail : Nat → Bool) (nct : String) (tags : Json)
    (st st1 : St) (h : eligPhase fail nct tags st = .ok st1) :
    ∃ se k, st1 = ({ st.1 with simplifiedEligibility := se }, k) := by
  unfold eligPhase at h
  split at h
  · cases h
    exact ⟨st.1.simplifiedEligibility, st.2, rfl⟩
  · rename_i v hv
    split at h
    · simp at h
    · rename_i s hs
      unfold dbStep at h
      split at h
      · simp at h
      · cases h
        exact ⟨upsertSummary st.1.simplifiedEligibility nct s, st.2 + 1, rfl⟩

theorem eligPhase_ensures (fail : Nat → Bool) (nct : String) (tags : Json)
    (st st1 : St) (s : String)
    (h : eligPhase fail nct tags st = .ok st1)
    (hv : jGet tags "simplified_eligibility" = some (Json.str s)) :
    (nct, s) ∈ st1.1.simplifiedEligibility := by
  unfold eligPhase at h
  simp only [hv, asStr] at h
  unfold dbStep at h
  split at h
  · simp at h
  · cases h
    exact upsertSummary_self_mem _ nct s

theorem inclPhase_char (fail : Nat → Bool) (nct : String) (tags : Json)
    (st st1 : St) (h : inclPhase fail nct tags st = .ok st1) :
    ∃ ctg tcr k, st1 = ({ st.1 with criteriaTags := ctg, trialCriteria := tcr }, k) := by
  unfold inclPhase at h
  split at h
  · cases h
    exact ⟨st.1.criteriaTags, st.1.trialCriteria, st.2, rfl⟩
  · rename_i v hv
    split at h
    · simp at h
    · rename_i xs hxs
      exact critLoop_char fail nct "inclusion" xs st st1 h

theorem inclPhase_ensures (fail : Nat → Bool) (nct : String) (tags : Json)
    (st st1 : St) (v : Json) (s : String)
    (h : inclPhase fail nct tags st = .ok st1)
    (hv : jGet tags "inclusion_criteria" = some v)
    (hmem : Json.str s ∈ elemsL v) :
    (nct, s, "inclusion") ∈ st1.1.trialCriteria := by
  unfold inclPhase at h
  simp only [hv] at h
  cases v <;> simp only [elemsE] at h
  case arr xs =>
    exact critLoop_ensures fail nct "inclusion" xs st st1 s h (by simpa [elemsL] using hmem)
  all_goals exact Except.noConfusion h

theorem exclPhase_char (fail : Nat → Bool) (nct : String) (tags : Json)
    (st st1 : St) (h : exclPhase fail nct tags st = .ok st1) :
    ∃ ctg tcr k, st1 = ({ st.1 with criteriaTags := ctg, trialCriteria := tcr }, k) := by
  unfold exclPhase at h
  split at h
  · cases h
    exact ⟨st.1.criteriaTags, st.1.trialCriteria, st.2, rfl⟩
  · rename_i v hv
    split at h
    · simp at h
    · rename_i xs hxs
      exact critLoop_char fail nct "exclusion" xs st st1 h

theorem exclPhase_ensures (fail : Nat → Bool) (nct : String) (tags : Json)
    (st st1 : St) (v : Json) (s : String)
    (h : exclPhase fail nct tags st = .ok st1)
    (hv : jGet tags "exclusion_criteria" = some v)
    (hmem : Json.str s ∈ elemsL v) :
    (nct, s, "exclusion") ∈ st1.1.trialCriteria := by
  unfold exclPhase at h
  simp only [hv] at h
  cases v <;> simp only [elemsE] at h
  case arr xs =>
    exact critLoop_ensures fail nct "exclusion" xs st st1 s h (by simpa [elemsL] using hmem)
  all_goals exact Except.noConfusion h

theorem exclPhase_mem_mono (fail : Nat → Bool) (nct : String) (tags : Json)
    (st st1 : St) (r : String × String × String)
    (h : exclPhase fail nct tags st = .ok st1)
    (hmem : r ∈ st.1.trialCriteria) :
    r ∈ st1.1.trialCriteria := by
  unfold exclPhase at h
  split at h
  · cases h
    exact hmem
  · rename_i v hv
    split at h
    · simp at h
    · rename_i xs hxs
      exact critLoop_mem_mono fail nct "exclusion" xs st st1 r h hmem

theorem stagePhase_char (fail : Nat → Bool) (nct : String) (tags : Json)
    (st st1 : St) (h : stagePhase fail nct tags st = .ok st1) :
    ∃ tsr k, st1 = ({ st.1 with trialStageRelevance := tsr }, k) := by
  unfold stagePhase at h
  split at h
  · cases h
    exact ⟨st.1.trialStageRelevance, st.2, rfl⟩
  · rename_i v hv
    split at h
    · simp at h
    · rename_i kvs hkvs
      exact stageLoop_char fail nct kvs st st1 h

theorem stagePhase_new_keys (fail : Nat → Bool) (nct : String) (tags : Json)
    (st st1 : St) (r : String × String × Int)
    (h : stagePhase fail nct tags st = .ok st1)
    (hmem : r ∈ st1.1.trialStageRelevance) :
    r ∈ st.1.trialStageRelevance ∨ r.2.1 ∈ st.1.diseaseStages := by
  unfold stagePhase at h
  split at h
  · cases h
    exact Or.inl hmem
  · rename_i v hv
    split at h
    · simp at h
    · rename_i kvs hkvs
      exact stageLoop_new_keys fail nct kvs st st1 r h hmem

theorem stagePhase_key_ensures (fail : Nat → Bool) (nct : String) (tags : Json)
    (st st1 : St) (v : Json) (k : String) (n : Int)
    (h : stagePhase fail nct tags st = .ok st1)
    (hv : jGet tags "stage_relevance" = some v)
    (hmem : (k, Json.num n) ∈ itemsL v)
    (hreg : k ∈ st.1.diseaseStages) :
    ∃ sc, (nct, k, sc) ∈ st1.1.trialStageRelevance := by
  unfold stagePhase at h
  simp only [hv] at h
  cases v <;> simp only [itemsE] at h
  case obj kvs =>
    exact stageLoop_key_ensures fail nct kvs st st1 k n h (by simpa [itemsL] using hmem) hreg
  all_goals exact Except.noConfusion h

theorem stagePhase_nodup_ensures (fail : Nat → Bool) (nct : String) (tags : Json)
    (st st1 : St) (v : Json) (k : String) (n : Int)
    (h : stagePhase fail nct tags st = .ok st1)
    (hv : jGet tags "stage_relevance" = some v)
    (hnd : ((itemsL v).map Prod.fst).Nodup)
    (hmem : (k, Json.num n) ∈ itemsL v)
    (hreg : k ∈ st.1.diseaseStages) :
    (nct, k, n) ∈ st1.1.trialStageRelevance := by
  unfold stagePhase at h
  simp only [hv] at h
  cases v <;> simp only [itemsE] at h
  case obj kvs =>
    exact stageLoop_ensures_nodup fail nct kvs st st1 k n h
      (by simpa [itemsL] using hnd) (by simpa [itemsL] using hmem) hreg
  all_goals exact Except.noConfusion h

theorem save_body_props (fail : Nat → Bool) (nct : String) (tags : Json)
    (st st1 : St) (h : save_trial_tags_body fail nct tags st = .ok st1) :
    (∀ v s, jGet tags "condition_tags" = some v → Json.str s ∈ elemsL v →
      ∃ sc, (nct, s, sc) ∈ st1.1.trialConditions) ∧
    (∀ v s, jGet tags "mechanisms" = some v → Json.str s ∈ elemsL v →
      ∃ sc, (nct, s, sc) ∈ st1.1.trialMechanisms) ∧
    (∀ v s, jGet tags "treatment_targets" = some v → Json.str s ∈ elemsL v →
      (nct, s) ∈ st1.1.trialTargets) ∧
    (∀ s, jGet tags "simplified_eligibility" = some (Json.str s) →
      (nct, s) ∈ st1.1.simplifiedEligibility) ∧
    (∀ v s, jGet tags "inclusion_criteria" = some v → Json.str s ∈ elemsL v →
      (nct, s, "inclusion") ∈ st1.1.trialCriteria) ∧
    (∀ v s, jGet tags "exclusion_criteria" = some v → Json.str s ∈ elemsL v →
      (nct, s, "exclusion") ∈ st1.1.trialCriteria) ∧
    (∀ v k n, jGet tags "stage_relevance" = some v → (k, Json.num n) ∈ itemsL v →
      k ∈ st.1.diseaseStages → ∃ sc, (nct, k, sc) ∈ st1.1.trialStageRelevance) ∧
    (∀ v k n, jGet tags "stage_relevance" = some v →
      ((itemsL v).map Prod.fst).Nodup → (k, Json.num n) ∈ itemsL v →
      k ∈ st.1.diseaseStages → (nct, k, n) ∈ st1.1.trialStageRelevance) ∧
    (∀ r, r ∈ st1.1.trialConditions → r ∈ st.1.trialConditions ∨ r.2.2 = 5) ∧
    (∀ r, r ∈ st1.1.trialMechanisms → r ∈ st.1.trialMechanisms ∨ r.2.2 = 5) ∧
    (∀ r, r ∈ st1.1.trialStageRelevance →
      r ∈ st.1.trialStageRelevance ∨ r.2.1 ∈ st.1.diseaseStages) ∧
    st1.1.diseaseStages = st.1.diseaseStages := by
  unfold save_trial_tags_body at h
  split at h
  · simp at h
  · rename_i st2 heq1
    split at h
    · simp at h
    · rename_i st3 heq2
      split at h
      · simp at h
      · rename_i st4 heq3
        split at h
        · simp at h
        · rename_i st5 heq4
          split at h
          · simp at h
          · rename_i st6 heq5
            split at h
            · simp at h
            · rename_i st7 heq6
              obtain ⟨ct, tc, k1, e2⟩ := condPhase_char _ _ _ _ _ heq1
              obtain ⟨mc, tm, k2, e3⟩ := mechPhase_char _ _ _ _ _ heq2
              obtain ⟨tt, tl, k3, e4⟩ := targetPhase_char _ _ _ _ _ heq3
              obtain ⟨se, k4, e5⟩ := eligPhase_char _ _ _ _ _ heq4
              obtain ⟨ctg5, tcr5, k5, e6⟩ := inclPhase_char _ _ _ _ _ heq5
              obtain ⟨ctg6, tcr6, k6, e7⟩ := exclPhase_char _ _ _ _ _ heq6
              obtain ⟨tsr7, k7, e8⟩ := stagePhase_char _ _ _ _ _ h
              have hTC : st1.1.trialConditions = st2.1.trialConditions := by
                rw [e8, e7, e6, e5, e4, e3]
              have hTM : st1.1.trialMechanisms = st3.1.trialMechanisms := by
                rw [e8, e7, e6, e5, e4]
              have hTT : st1.1.trialTargets = st4.1.trialTargets := by
                rw [e8, e7, e6, e5]
              have hSE : st1.1.simplifiedEligibility = st5.1.simplifiedEligibility := by
                rw [e8, e7, e6]
              have hCR : st1.1.trialCriteria = st7.1.trialCriteria := by
                rw [e8]
              have hDS7 : st7.1.diseaseStages = st.1.diseaseStages := by
                rw [e7, e6, e5, e4, e3, e2]
              have hTSR7 : st7.1.trialStageRelevance = st.1.trialStageRelevance := by
                rw [e7, e6, e5, e4, e3, e2]
              have hDS1 : st1.1.diseaseStages = st.1.diseaseStages := by
                rw [e8, e7, e6, e5, e4, e3, e2]
              refine ⟨?_, ?_, ?_, ?_, ?_, ?_, ?_, ?_, ?_, ?_, ?_, hDS1⟩
              · intro v s hv hmem
                rw [hTC]
                exact condPhase_ensures fail nct tags st st2 v s heq1 hv hmem
              · intro v s hv hmem
                rw [hTM]
                exact mechPhase_ensures fail nct tags st2 st3 v s heq2 hv hmem
              · intro v s hv hmem
                rw [hTT]
                exact targetPhase_ensures fail nct tags st3 st4 v s heq3 hv hmem
              · intro s hv
                rw [hSE]
                exact eligPhase_ensures fail nct tags st4 st5 s heq4 hv
              · intro v s hv hmem
                rw [hCR]
                exact exclPhase_mem_mono fail nct tags st6 st7 _ heq6
                  (inclPhase_ensures fail nct tags st5 st6 v s heq5 hv hmem)
              · intro v s hv hmem
                rw [hCR]
                exact exclPhase_ensures fail nct tags st6 st7 v s heq6 hv hmem
              · intro v k n hv hmem hreg
                rw [← hDS7] at hreg
                exact stagePhase_key_ensures fail nct tags st7 st1 v k n h hv hmem hreg
              · intro v k n hv hnd hmem hreg
                rw [← hDS7] at hreg
                exact stagePhase_nodup_ensures fail nct tags st7 st1 v k n h hv hnd hmem hreg
              · intro r hmem
                rw [hTC] at hmem
                exact condPhase_elim5 fail nct tags st st2 r heq1 hmem
              · intro r hmem
                rw [hTM] at hmem
                have h2 := mechPhase_elim5 fail nct tags st2 st3 r heq2 hmem
                rcases h2 with h3 | h3
                · left
                  have hTM2 : st2.1.trialMechanisms = st.1.trialMechanisms := by
                    rw [e2]
                  rw [← hTM2]
                  exact h3
                · exact Or.inr h3
              · intro r hmem
                have h2 := stagePhase_new_keys fail nct tags st7 st1 r h hmem
                rcases h2 with h3 | h3
                · left
                  rw [← hTSR7]
                  exact h3
                · right
                  rw [← hDS7]
                  exact h3

theorem jGet_toJson_condition (td : TagsData) :
    jGet td.toJson "condition_tags" =
      td.condition_tags.map (fun l => Json.arr (l.map Json.str)) := by
  obtain ⟨f1, f2, f3, f4, f5, f6, f7⟩ := td
  cases f1 <;> cases f2 <;> cases f3 <;> cases f4 <;> cases f5 <;> cases f6 <;> cases f7 <;> rfl

theorem jGet_toJson_mechanisms (td : TagsData) :
    jGet td.toJson "mechanisms" =
      td.mechanisms.map (fun l => Json.arr (l.map Json.str)) := by
  obtain ⟨f1, f2, f3, f4, f5, f6, f7⟩ := td
  cases f1 <;> cases f2 <;> cases f3 <;> cases f4 <;> cases f5 <;> cases f6 <;> cases f7 <;> rfl

theorem jGet_toJson_targets (td : TagsData) :
    jGet td.toJson "treatment_targets" =
      td.treatment_targets.map (fun l => Json.arr (l.map Json.str)) := by
  obtain ⟨f1, f2, f3, f4, f5, f6, f7⟩ := td
  cases f1 <;> cases f2 <;> cases f3 <;> cases f4 <;> cases f5 <;> cases f6 <;> cases f7 <;> rfl

theorem jGet_toJson_elig (td : TagsData) :
    jGet td.toJson "simplified_eligibility" =
      td.simplified_eligibility.map Json.str := by
  obtain ⟨f1, f2, f3, f4, f5, f6, f7⟩ := td
  cases f1 <;> cases f2 <;> cases f3 <;> cases f4 <;> cases f5 <;> cases f6 <;> cases f7 <;> rfl

theorem jGet_toJson_incl (td : TagsData) :
    jGet td.toJson "inclusion_criteria" =
      td.inclusion_criteria.map (fun l => Json.arr (l.map Json.str)) := by
  obtain ⟨f1, f2, f3, f4, f5, f6, f7⟩ := td
  cases f1 <;> cases f2 <;> cases f3 <;> cases f4 <;> cases f5 <;> cases f6 <;> cases f7 <;> rfl

theorem jGet_toJson_excl (td : TagsData) :
    jGet td.toJson "exclusion_criteria" =
      td.exclusion_criteria.map (fun l => Json.arr (l.map Json.str)) := by
  obtain ⟨f1, f2, f3, f4, f5, f6, f7⟩ := td
  cases f1 <;> cases f2 <;> cases f3 <;> cases f4 <;> cases f5 <;> cases f6 <;> cases f7 <;> rfl

theorem jGet_toJson_stage (td : TagsData) :
    jGet td.toJson "stage_relevance" =
      td.stage_relevance.map (fun kvs => Json.obj (kvs.map (fun p => (p.1, Json.num p.2)))) := by
  obtain ⟨f1, f2, f3, f4, f5, f6, f7⟩ := td
  cases f1 <;> cases f2 <;> cases f3 <;> cases f4 <;> cases f5 <;> cases f6 <;> cases f7 <;> rfl

theorem body_ok_of_phases (fail : Nat → Bool) (nct : String) (tags : Json)
    (st st2 st3 st4 st5 st6 st7 st8 : St)
    (h1 : condPhase fail nct tags st = .ok st2)
    (h2 : mechPhase fail nct tags st2 = .ok st3)
    (h3 : targetPhase fail nct tags st3 = .ok st4)
    (h4 : eligPhase fail nct tags st4 = .ok st5)
    (h5 : inclPhase fail nct tags st5 = .ok st6)
    (h6 : exclPhase fail nct tags st6 = .ok st7)
    (h7 : stagePhase fail nct tags st7 = .ok st8) :
    save_trial_tags_body fail nct tags st = .ok st8 := by
  unfold save_trial_tags_body
  simp only [h1, h2, h3, h4, h5, h6, h7]

theorem condLoop_noFail_ok (nct : String) :
    ∀ (l : List String) (st : St),
      ∃ st1, condLoop noFail nct (l.map Json.str) st = .ok st1 := by
  intro l
  induction l with
  | nil =>
    intro st
    exact ⟨st, rfl⟩
  | cons s rest ih =>
    intro st
    obtain ⟨st1, h1⟩ := ih ({ st.1 with
      conditionTags := insertName st.1.conditionTags s,
      trialConditions := upsertScore st.1.trialConditions nct s 5 }, st.2 + 2)
    exact ⟨st1, h1⟩

theorem mechLoop_noFail_ok (nct : String) :
    ∀ (l : List String) (st : St),
      ∃ st1, mechLoop noFail nct (l.map Json.str) st = .ok st1 := by
  intro l
  induction l with
  | nil =>
    intro st
    exact ⟨st, rfl⟩
  | cons s rest ih =>
    intro st
    obtain ⟨st1, h1⟩ := ih ({ st.1 with
      mechanismCategories := insertName st.1.mechanismCategories s,
      trialMechanisms := upsertScore st.1.trialMechanisms nct s 5 }, st.2 + 2)
    exact ⟨st1, h1⟩

theorem targetLoop_noFail_ok (nct : String) :
    ∀ (l : List String) (st : St),
      ∃ st1, targetLoop noFail nct (l.map Json.str) st = .ok st1 := by
  intro l
  induction l with
  | nil =>
    intro st
    exact ⟨st, rfl⟩
  | cons s rest ih =>
    intro st
    obtain ⟨st1, h1⟩ := ih ({ st.1 with
      treatmentTargets := insertName st.1.treatmentTargets s,
      trialTargets := linkPair st.1.trialTargets nct s }, st.2 + 2)
    exact ⟨st1, h1⟩

theorem critLoop_noFail_ok (nct ty : String) :
    ∀ (l : List String) (st : St),
      ∃ st1, critLoop noFail nct ty (l.map Json.str) st = .ok st1 := by
  intro l
  induction l with
  | nil =>
    intro st
    exact ⟨st, rfl⟩
  | cons s rest ih =>
    intro st
    obtain ⟨st1, h1⟩ := ih ({ st.1 with
      criteriaTags := insertCriteriaTag st.1.criteriaTags s ty,
      trialCriteria := linkCriteria st.1.trialCriteria nct s ty }, st.2 + 2)
    exact ⟨st1, h1⟩

theorem stageLoop_noFail_ok (nct : String) :
    ∀ (kvs : List (String × Int)) (st : St),
      ∃ st1, stageLoop noFail nct (kvs.map (fun p => (p.1, Json.num p.2))) st = .ok st1 := by
  intro kvs
  induction kvs with
  | nil =>
    intro st
    exact ⟨st, rfl⟩
  | cons kv rest ih =>
    intro st
    obtain ⟨k, n⟩ := kv
    by_cases hfd : st.1.diseaseStages.any (fun x => x == k) = true
    · have hstep : stageStep noFail nct (k, Json.num n) st =
        .ok ({ st.1 with
          trialStageRelevance := upsertScore st.1.trialStageRelevance nct k n }, st.2 + 2) := by
        simp [stageStep, dbQuery, dbStep, noFail, asInt, hfd]
      obtain ⟨st1, h1⟩ := ih ({ st.1 with
        trialStageRelevance := upsertScore st.1.trialStageRelevance nct k n }, st.2 + 2)
      refine ⟨st1, ?_⟩
      simp only [List.map_cons, stageLoop, hstep]
      exact h1
    · have hfd2 : st.1.diseaseStages.any (fun x => x == k) = false :=
        Bool.eq_false_iff.mpr hfd
      have hstep : stageStep noFail nct (k, Json.num n) st = .ok (st.1, st.2 + 1) := by
        simp [stageStep, dbQuery, noFail, hfd2]
      obtain ⟨st1, h1⟩ := ih (st.1, st.2 + 1)
      refine ⟨st1, ?_⟩
      simp only [List.map_cons, stageLoop, hstep]
      exact h1

theorem condPhase_noFail_ok (nct : String) (td : TagsData) (st : St) :
    ∃ st1, condPhase noFail nct td.toJson st = .ok st1 := by
  unfold condPhase
  rw [jGet_toJson_condition]
  cases hc : td.condition_tags with
  | none => exact ⟨st, rfl⟩
  | some l => exact condLoop_noFail_ok nct l st

theorem mechPhase_noFail_ok (nct : String) (td : TagsData) (st : St) :
    ∃ st1, mechPhase noFail nct td.toJson st = .ok st1 := by
  unfold mechPhase
  rw [jGet_toJson_mechanisms]
  cases hc : td.mechanisms with
  | none => exact ⟨st, rfl⟩
  | some l => exact mechLoop_noFail_ok nct l st

theorem targetPhase_noFail_ok (nct : String) (td : TagsData) (st : St) :
    ∃ st1, targetPhase noFail nct td.toJson st = .ok st1 := by
  unfold targetPhase
  rw [jGet_toJson_targets]
  cases hc : td.treatment_targets with
  | none => exact ⟨st, rfl⟩
  | some l => exact targetLoop_noFail_ok nct l st

theorem eligPhase_noFail_ok (nct : String) (td : TagsData) (st : St) :
    ∃ st1, eligPhase noFail nct td.toJson st = .ok st1 := by
  unfold eligPhase
  rw [jGet_toJson_elig]
  cases hc : td.simplified_eligibility with
  | none => exact ⟨st, rfl⟩
  | some s =>
    exact ⟨({ st.1 with
      simplifiedEligibility := upsertSummary st.1.simplifiedEligibility nct s }, st.2 + 1), rfl⟩

theorem inclPhase_noFail_ok (nct : String) (td : TagsData) (st : St) :
    ∃ st1, inclPhase noFail nct td.toJson st = .ok st1 := by
  unfold inclPhase
  rw [jGet_toJson_incl]
  cases hc : td.inclusion_criteria with
  | none => exact ⟨st, rfl⟩
  | some l => exact critLoop_noFail_ok nct "inclusion" l st

theorem exclPhase_noFail_ok (nct : String) (td : TagsData) (st : St) :
    ∃ st1, exclPhase noFail nct td.toJson st = .ok st1 := by
  unfold exclPhase
  rw [jGet_toJson_excl]
  cases hc : td.exclusion_criteria with
  | none => exact ⟨st, rfl⟩
  | some l => exact critLoop_noFail_ok nct "exclusion" l st

theorem stagePhase_noFail_ok (nct : String) (td : TagsData) (st : St) :
    ∃ st1, stagePhase noFail nct td.toJson st = .ok st1 := by
  unfold stagePhase
  rw [jGet_toJson_stage]
  cases hc : td.stage_relevance with
  | none => exact ⟨st, rfl⟩
  | some kvs => exact stageLoop_noFail_ok nct kvs st

theorem save_body_noFail_ok (nct : String) (td : TagsData) (st : St) :
    ∃ st1, save_trial_tags_body noFail nct td.toJson st = .ok st1 := by
  obtain ⟨st2, h1⟩ := condPhase_noFail_ok nct td st
  obtain ⟨st3, h2⟩ := mechPhase_noFail_ok nct td st2
  obtain ⟨st4, h3⟩ := targetPhase_noFail_ok nct td st3
  obtain ⟨st5, h4⟩ := eligPhase_noFail_ok nct td st4
  obtain ⟨st6, h5⟩ := inclPhase_noFail_ok nct td st5
  obtain ⟨st7, h6⟩ := exclPhase_noFail_ok nct td st6
  obtain ⟨st8, h7⟩ := stagePhase_noFail_ok nct td st7
  exact ⟨st8, body_ok_of_phases noFail nct td.toJson st st2 st3 st4 st5 st6 st7 st8
    h1 h2 h3 h4 h5 h6 h7⟩

/-- C1: `save_trial_tags` persists every provided sub-collection
(condition tags, mechanism tags, treatment targets, inclusion/exclusion
criteria, the simplified-eligibility summary, and registered
stage-relevance entries) inside one transaction, and the transaction is
atomic: when any connection round trip fails, the error propagates to
the caller and the database is left exactly as before the call — no
sub-collection row written by the call remains. -/
theorem save_trial_tags_atomic :
    ∀ (fail : Nat → Bool) (nct : String) (tags : Json) (db : DB),
      (∀ e, (save_trial_tags fail nct tags db).1 = .error e →
        (save_trial_tags fail nct tags db).2 = db) ∧
      ((save_trial_tags fail nct tags db).1 = .ok () →
        (∀ v s, jGet tags "condition_tags" = some v → Json.str s ∈ elemsL v →
          ∃ sc, (nct, s, sc) ∈ (save_trial_tags fail nct tags db).2.trialConditions) ∧
        (∀ v s, jGet tags "mechanisms" = some v → Json.str s ∈ elemsL v →
          ∃ sc, (nct, s, sc) ∈ (save_trial_tags fail nct tags db).2.trialMechanisms) ∧
        (∀ v s, jGet tags "treatment_targets" = some v → Json.str s ∈ elemsL v →
          (nct, s) ∈ (save_trial_tags fail nct tags db).2.trialTargets) ∧
        (∀ s, jGet tags "simplified_eligibility" = some (Json.str s) →
          (nct, s) ∈ (save_trial_tags fail nct tags db).2.simplifiedEligibility) ∧
        (∀ v s, jGet tags "inclusion_criteria" = some v → Json.str s ∈ elemsL v →
          (nct, s, "inclusion") ∈ (save_trial_tags fail nct tags db).2.trialCriteria) ∧
        (∀ v s, jGet tags "exclusion_criteria" = some v → Json.str s ∈ elemsL v →
          (nct, s, "exclusion") ∈ (save_trial_tags fail nct tags db).2.trialCriteria) ∧
        (∀ v k n, jGet tags "stage_relevance" = some v → (k, Json.num n) ∈ itemsL v →
          k ∈ db.diseaseStages →
          ∃ sc, (nct, k, sc) ∈ (save_trial_tags fail nct tags db).2.trialStageRelevance)) := by
  intro fail nct tags db
  cases hb : save_trial_tags_body fail nct tags (db, 0) with
  | error e =>
    have hsave : save_trial_tags fail nct tags db = (.error e, db) := by
      unfold save_trial_tags
      rw [hb]
    constructor
    · intro e2 h2
      rw [hsave]
    · intro hok
      rw [hsave] at hok
      exact absurd hok (by simp)
  | ok stp =>
    obtain ⟨db1, k1⟩ := stp
    have hsave : save_trial_tags fail nct tags db = (.ok (), db1) := by
      unfold save_trial_tags
      rw [hb]
    have props := save_body_props fail nct tags (db, 0) (db1, k1) hb
    constructor
    · intro e2 h2
      rw [hsave] at h2
      exact absurd h2 (by simp)
    · intro hok
      rw [hsave]
      exact ⟨props.1, props.2.1, props.2.2.1, props.2.2.2.1, props.2.2.2.2.1,
        props.2.2.2.2.2.1, props.2.2.2.2.2.2.1⟩

theorem save_trial_tags_atomic_witness :
    (∃ sc, ("N1", "NSCLC", sc) ∈ (save_trial_tags noFail "N1" tagsCond dbStages).2.trialConditions) ∧
    (save_trial_tags failAt1 "N1" tagsCond dbStages).2 = dbStages := by
  constructor
  · exact ((save_trial_tags_atomic noFail "N1" tagsCond dbStages).2 (by rfl)).1
      (Json.arr [Json.str "NSCLC"]) "NSCLC" (by rfl) (by simp [elemsL])
  · exact (save_trial_tags_atomic failAt1 "N1" tagsCond dbStages).1 "database error" (by rfl)

/-- C7: for a well-shaped tag set whose stage-relevance mapping names an
unregistered stage, `save_trial_tags` still succeeds (the unknown name
is silently dropped, writing no stage-relevance row for it), while
registered stage names in the same mapping are written with their
scores. -/
theorem save_trial_tags_skips_unknown_stage :
    ∀ (td : TagsData) (nct : String) (db : DB) (sr : List (String × Int)),
      td.stage_relevance = some sr →
      (save_trial_tags noFail nct td.toJson db).1 = .ok () ∧
      (∀ s, s ∉ db.diseaseStages →
        ∀ r, r ∈ (save_trial_tags noFail nct td.toJson db).2.trialStageRelevance →
          r.2.1 = s → r ∈ db.trialStageRelevance) ∧
      (∀ k v, (k, v) ∈ sr → k ∈ db.diseaseStages → (sr.map Prod.fst).Nodup →
        (nct, k, v) ∈ (save_trial_tags noFail nct td.toJson db).2.trialStageRelevance) := by
  intro td nct db sr hsr
  obtain ⟨⟨db1, k1⟩, hb⟩ := save_body_noFail_ok nct td (db, 0)
  have hsave : save_trial_tags noFail nct td.toJson db = (.ok (), db1) := by
    unfold save_trial_tags
    rw [hb]
  have props := save_body_props noFail nct td.toJson (db, 0) (db1, k1) hb
  refine ⟨by rw [hsave], ?_, ?_⟩
  · intro s hs r hr hkey
    rw [hsave] at hr
    rcases props.2.2.2.2.2.2.2.2.2.2.1 r hr with h1 | h1
    · exact h1
    · exfalso
      rw [hkey] at h1
      exact hs h1
  · intro k v hkv hreg hnd
    rw [hsave]
    have hv : jGet td.toJson "stage_relevance" =
        some (Json.obj (sr.map (fun p => (p.1, Json.num p.2)))) := by
      rw [jGet_toJson_stage, hsr]
      rfl
    refine props.2.2.2.2.2.2.2.1 (Json.obj (sr.map (fun p => (p.1, Json.num p.2)))) k v hv ?_ ?_ hreg
    · rw [show itemsL (Json.obj (sr.map (fun p => (p.1, Json.num p.2)))) =
          sr.map (fun p => (p.1, Json.num p.2)) from rfl]
      rw [List.map_map]
      exact hnd
    · exact List.mem_map_of_mem _ hkv

theorem save_trial_tags_skips_unknown_stage_witness :
    (save_trial_tags noFail "N1" tdTerminal.toJson dbStages).1 = .ok () ∧
    ¬ (("N1", "terminal", (3 : Int)) ∈
        (save_trial_tags noFail "N1" tdTerminal.toJson dbStages).2.trialStageRelevance) ∧
    ("N1", "early", (4 : Int)) ∈
      (save_trial_tags noFail "N1" tdTerminal.toJson dbStages).2.trialStageRelevance := by
  have h := save_trial_tags_skips_unknown_stage tdTerminal "N1" dbStages
    [("terminal", 3), ("early", 4)] (by rfl)
  refine ⟨h.1, ?_, ?_⟩
  · intro hmem
    have h2 := h.2.1 "terminal" (by decide) _ hmem (by rfl)
    exact absurd h2 (by decide)
  · exact h.2.2 "early" 4 (by decide) (by decide) (by decide)

/-- C10: every row `save_trial_tags` writes to `trial_conditions` or
`trial_mechanisms` carries the constant relevance score 5 — the stored
condition-tag and mechanism-tag scores never depend on the tag set's
contents (any rows of the final state either predate the call or have
score 5). -/
theorem save_trial_tags_constant_relevance :
    ∀ (fail : Nat → Bool) (nct : String) (tags : Json) (db : DB),
      (save_trial_tags fail nct tags db).1 = .ok () →
      (∀ r, r ∈ (save_trial_tags fail nct tags db).2.trialConditions →
        r ∈ db.trialConditions ∨ r.2.2 = 5) ∧
      (∀ r, r ∈ (save_trial_tags fail nct tags db).2.trialMechanisms →
        r ∈ db.trialMechanisms ∨ r.2.2 = 5) := by
  intro fail nct tags db hok
  cases hb : save_trial_tags_body fail nct tags (db, 0) with
  | error e =>
    have hsave : save_trial_tags fail nct tags db = (.error e, db) := by
      unfold save_trial_tags
      rw [hb]
    rw [hsave] at hok
    exact absurd hok (by simp)
  | ok stp =>
    obtain ⟨db1, k1⟩ := stp
    have hsave : save_trial_tags fail nct tags db = (.ok (), db1) := by
      unfold save_trial_tags
      rw [hb]
    have props := save_body_props fail nct tags (db, 0) (db1, k1) hb
    rw [hsave]
    exact ⟨props.2.2.2.2.2.2.2.2.1, props.2.2.2.2.2.2.2.2.2.1⟩

theorem save_trial_tags_constant_relevance_witness :
    ("N1", "NSCLC", (5 : Int)) ∈ dbStages.trialConditions ∨
      (("N1", "NSCLC", (5 : Int)) : String × String × Int).2.2 = 5 :=
  (save_trial_tags_constant_relevance noFail "N1" tagsCond dbStages (by rfl)).1
    ("N1", "NSCLC", 5) (by decide)
